import Mathlib

/-!
# Bid placement of the fundraising module

A shallow embedding of `x/fundraising/types/bid.go` and
`x/fundraising/keeper/bid.go`.

* `sdk.Int` is an unbounded integer (`big.Int`); `sdk.Dec` is a `big.Int`
  holding the value scaled by `10^18`.  The arithmetic of the two library
  types is embedded stage by stage (`Quo` and `QuoRem` of `big.Int` are
  truncated division).  A Go panic (division by zero, a decimal of more than
  315 bits in `Mul` and `QuoTruncate`, invalid coin, coins of different
  denominations) is the error `Err.crashed`.  The bit-length guard of
  `sdk.Int` (255 or 256 bits, by the version of the library) is outside the
  model, and so is the syntax check of a denomination string; where it
  matters the theorems keep the amounts below `2^255`.
* The keeper is embedded by explicit state passing: every operation takes the
  state and returns the state at the point where the Go function returns,
  together with its result.
-/

namespace Fundraising

/-! ## sdk.Dec -/

/-- The scaling factor of `sdk.Dec`: 18 decimal places. -/
def precisionReuse : Int := 10 ^ 18

/-- Half of one unit of an integer, in `sdk.Dec` scale. -/
def fivePrecision : Int := 5 * 10 ^ 17

/-- An `sdk.Dec`: the integer `i` stands for the number `i / 10^18`. -/
structure Dec where
  i : Int
deriving DecidableEq, Repr

/-- The rational number a `Dec` stands for. -/
def Dec.toRat (d : Dec) : ℚ := (d.i : ℚ) / 10 ^ 18

/-- `Int.ToDec`: the integer as a decimal. -/
def ToDec (a : Int) : Dec := ⟨a * precisionReuse⟩

/-- `Dec.Equal`. -/
def Dec.Equal (d d2 : Dec) : Bool := decide (d.i = d2.i)

/-- `chopPrecisionAndTruncate`: drop 18 digits, truncating toward zero. -/
def chopPrecisionAndTruncate (d : Int) : Int := Int.tdiv d precisionReuse

/-- The body of `chopPrecisionAndRound` for a non-negative argument:
drop 18 digits with banker's rounding. -/
def chopPrecisionAndRoundNonNeg (d : Int) : Int :=
  let quo := Int.tdiv d precisionReuse
  let rem := Int.tmod d precisionReuse
  if rem = 0 then quo
  else if rem < fivePrecision then quo
  else if rem > fivePrecision then quo + 1
  else if quo % 2 = 0 then quo
  else quo + 1

/-- `chopPrecisionAndRound`: a negative argument is negated, rounded and
negated back. -/
def chopPrecisionAndRound (d : Int) : Int :=
  if d < 0 then -(chopPrecisionAndRoundNonNeg (-d)) else chopPrecisionAndRoundNonNeg d

/-- The constant `DecimalPrecisionBits` of `sdk.Dec`: the bits of 18 decimal
digits. -/
def DecimalPrecisionBits : Nat := 60

/-- The test `chopped.BitLen() > 255+DecimalPrecisionBits` of `Mul` and
`QuoTruncate`: the absolute value needs more than 315 bits, that is, it is at
least `2^315 = 2^255 * 2^60`. -/
def decOverflow (chopped : Int) : Bool :=
  decide (2 ^ 255 * 2 ^ DecimalPrecisionBits ≤ chopped.natAbs)

/-- `Dec.Mul`: the product, rounded to 18 decimal places; `none` is the panic
`Int overflow` of a product of more than 315 bits. -/
def Dec.Mul (d d2 : Dec) : Option Dec :=
  let chopped := chopPrecisionAndRound (d.i * d2.i)
  if decOverflow chopped then none else some ⟨chopped⟩

/-- `Dec.QuoTruncate`: the quotient truncated to 18 decimal places; `none`
is the panic of a division by zero, or the panic `Int overflow` of a quotient
of more than 315 bits. -/
def Dec.QuoTruncate (d d2 : Dec) : Option Dec :=
  if d2.i = 0 then none
  else
    let chopped :=
      chopPrecisionAndTruncate (Int.tdiv (d.i * precisionReuse * precisionReuse) d2.i)
    if decOverflow chopped then none else some ⟨chopped⟩

/-- `Dec.Ceil`: the least integral decimal not below `d`. -/
def Dec.Ceil (d : Dec) : Dec :=
  let quo := Int.tdiv d.i precisionReuse
  let rem := Int.tmod d.i precisionReuse
  if rem = 0 then ⟨quo * precisionReuse⟩
  else if rem < 0 then ⟨quo * precisionReuse⟩
  else ⟨(quo + 1) * precisionReuse⟩

/-- `Dec.TruncateInt`: the integer part. -/
def Dec.TruncateInt (d : Dec) : Int := chopPrecisionAndTruncate d.i

/-! ## Coins and bids -/

/-- An `sdk.Coin`. -/
structure Coin where
  denom : String
  amount : Int
deriving DecidableEq, Repr

/-- Modelled from the spec: the bid type, whose declaration is generated code
outside `types/bid.go`.  The spec names `BatchWorth` and `BatchMany`, for
batch auctions only; `unspecified` is the zero value of the enumeration, which
a bid built without a type carries. -/
inductive BidType where
  | unspecified
  | fixedPrice
  | batchWorth
  | batchMany
deriving DecidableEq, Repr

/-- A bid record (`types.Bid`). -/
structure Bid where
  auctionId : Nat
  id : Nat
  bidder : String
  price : Dec
  coin : Coin
  height : Nat
  isWinner : Bool
  isMatched : Bool
  type : BidType
deriving DecidableEq, Repr

/-- `BidAmount / BidPrice`, the expression
`Amount.ToDec().QuoTruncate(Price).TruncateInt()`. -/
def quoTruncateInt (amount : Int) (price : Dec) : Option Int :=
  ((ToDec amount).QuoTruncate price).map Dec.TruncateInt

/-- `Bid.ConvertToSellingAmount`. -/
def Bid.ConvertToSellingAmount (b : Bid) (denom : String) : Option Int :=
  if b.coin.denom = denom then
    quoTruncateInt b.coin.amount b.price
  else
    some b.coin.amount

/-- `Bid.ConvertToPayingAmount`; `none` is the panic of `Mul`. -/
def Bid.ConvertToPayingAmount (b : Bid) (denom : String) : Option Int :=
  if b.coin.denom = denom then
    some b.coin.amount
  else
    (((ToDec b.coin.amount).Mul b.price).map Dec.Ceil).map Dec.TruncateInt

/-- `Bid.SetMatched`. -/
def Bid.SetMatched (b : Bid) (status : Bool) : Bid := { b with isMatched := status }

/-! ## Auctions -/

/-- Modelled from the spec: the auction type tag (`FixedPrice` or `Batch`),
whose declaration is generated code outside `keeper/bid.go`; `unspecified` is
the zero value of the enumeration. -/
inductive AuctionType where
  | unspecified
  | fixedPrice
  | batch
deriving DecidableEq, Repr

/-- Modelled from the spec: the auction status, whose declaration is generated
code outside `keeper/bid.go`; bidding is open in `started` only. -/
inductive AuctionStatus where
  | unspecified
  | standBy
  | started
  | vesting
  | finished
  | cancelled
deriving DecidableEq, Repr

/-- An entry of the allowed-bidder list of an auction. -/
structure AllowedBidder where
  bidder : String
  maxBidAmount : Int
deriving DecidableEq, Repr

/-- Modelled from the spec: the auction record behind the `AuctionI`
interface, with the fields its getters read in `keeper/bid.go`. -/
structure Auction where
  id : Nat
  type : AuctionType
  status : AuctionStatus
  allowedBidders : List AllowedBidder
  startPrice : Dec
  payingCoinDenom : String
  sellingCoin : Coin
  remainingSellingCoin : Coin
deriving DecidableEq, Repr

/-- `AuctionI.SetRemainingSellingCoin`. -/
def Auction.SetRemainingSellingCoin (a : Auction) (c : Coin) : Auction :=
  { a with remainingSellingCoin := c }

/-! ## Library operations on coins -/

/-- `sdk.NewCoin`: panics (`none`) on a negative amount. -/
def NewCoin (denom : String) (amount : Int) : Option Coin :=
  if amount < 0 then none else some ⟨denom, amount⟩

/-- `Coin.IsLT`: panics (`none`) when the denominations differ. -/
def Coin.IsLT (c other : Coin) : Option Bool :=
  if c.denom ≠ other.denom then none else some (decide (c.amount < other.amount))

/-- `Coin.Sub`: panics (`none`) when the denominations differ or the result
is negative. -/
def Coin.Sub (c other : Coin) : Option Coin :=
  if c.denom ≠ other.denom then none
  else if c.amount - other.amount < 0 then none
  else some ⟨c.denom, c.amount - other.amount⟩

/-- `sdk.NewCoins` of one coin: a zero coin is dropped, a negative one
panics (`none`). -/
def NewCoins (c : Coin) : Option (List Coin) :=
  if c.amount = 0 then some []
  else if c.amount < 0 then none
  else some [c]

/-! ## State -/

/-- An account address: that of a user, or the paying reserve address
derived from an auction id (`types.PayingReserveAddress`). -/
inductive Address where
  | account (bech32 : String)
  | payingReserve (auctionId : Nat)
deriving DecidableEq, Repr

/-- The records sent to the event manager. -/
inductive Event where
  | placeBid (auctionId : Nat) (bidder : String) (price : Dec) (coin : Coin)
  | bidAmount (coin : Coin)
deriving DecidableEq, Repr

/-- The errors of the keeper; `crashed` is a Go panic. -/
inductive Err where
  | auctionNotFound
  | bidNotFound
  | invalidAuctionStatus
  | reserveFailed
  | notAllowedBidder
  | incorrectCoinDenom
  | invalidStartPrice
  | insufficientRemainingAmount
  | overMaxBidAmountLimit
  | incorrectAuctionType
  | invalidRequest
  | crashed
deriving DecidableEq, Repr

/-- What the keeper reads and writes through its context: the auction store,
the bid store, the last bid id of every auction, the bank balances, the
height of the current block (an `int64`) and the emitted events. -/
structure State where
  auctions : List Auction
  bids : List Bid
  lastBidId : Nat → Nat
  balances : Address → String → Int
  blockHeight : Int
  events : List Event

/-- Writing to a key-value store whose key is computed from the record: the
record under the same key is replaced, a new key is added. -/
def kvSet {α κ : Type} [DecidableEq κ] (key : α → κ) : List α → α → List α
  | [], a => [a]
  | x :: xs, a => if key x = key a then a :: xs else x :: kvSet key xs a

/-- Reading a key-value store. -/
def kvGet {α κ : Type} [DecidableEq κ] (key : α → κ) (l : List α) (k : κ) : Option α :=
  l.find? (fun x => decide (key x = k))

/-- The store key of a bid: auction id and bid id. -/
def bidKey (b : Bid) : Nat × Nat := (b.auctionId, b.id)

/-- Modelled from the spec: `Keeper.GetAuction`, the auction store's
`get(auctionId)`. -/
def GetAuction (s : State) (auctionId : Nat) : Option Auction :=
  kvGet Auction.id s.auctions auctionId

/-- Modelled from the spec: `Keeper.SetAuction`, the auction store's `set`. -/
def SetAuction (s : State) (a : Auction) : State :=
  { s with auctions := kvSet Auction.id s.auctions a }

/-- Modelled from the spec: `Keeper.GetBid`, the bid store's
`get(auctionId, bidId)`. -/
def GetBid (s : State) (auctionId bidId : Nat) : Option Bid :=
  kvGet bidKey s.bids (auctionId, bidId)

/-- Modelled from the spec: `Keeper.SetBid`, the bid store's `set`. -/
def SetBid (s : State) (b : Bid) : State :=
  { s with bids := kvSet bidKey s.bids b }

/-- Modelled from the spec: `Keeper.GetBidsByAuctionId`, the bid store's
`listByAuction(auctionId)`. -/
def GetBidsByAuctionId (s : State) (auctionId : Nat) : List Bid :=
  s.bids.filter (fun b => decide (b.auctionId = auctionId))

/-- Modelled from the spec: `Keeper.GetLastBidId`, the persisted last bid id
of the auction (0 before the first bid). -/
def GetLastBidId (s : State) (auctionId : Nat) : Nat := s.lastBidId auctionId

/-- Modelled from the spec: `Keeper.SetBidId`. -/
def SetBidId (s : State) (auctionId id : Nat) : State :=
  { s with lastBidId := fun a => if a = auctionId then id else s.lastBidId a }

/-- Modelled from the spec: the bank's `SendCoins`, the balance transfer
`transfer(from, to, coin)`; `none` is the error of an insufficient balance. -/
def SendCoins (bal : Address → String → Int) (sender recipient : Address) :
    List Coin → Option (Address → String → Int)
  | [] => some bal
  | c :: cs =>
    if bal sender c.denom < c.amount then none
    else
      let bal1 : Address → String → Int := fun a d =>
        if a = sender ∧ d = c.denom then bal a d - c.amount else bal a d
      let bal2 : Address → String → Int := fun a d =>
        if a = recipient ∧ d = c.denom then bal1 a d + c.amount else bal1 a d
      SendCoins bal2 sender recipient cs

/-- The conversion `uint64(h)` of an `int64`. -/
def uint64 (h : Int) : Nat := (h % 2 ^ 64).toNat

/-! ## The keeper -/

/-- `Keeper.GetNextBidIdWithUpdate`: the last bid id plus one, in `uint64`,
stored as the new last bid id. -/
def GetNextBidIdWithUpdate (s : State) (auctionId : Nat) : State × Nat :=
  let id := (GetLastBidId s auctionId + 1) % 2 ^ 64
  (SetBidId s auctionId id, id)

/-- `Keeper.ReservePayingCoin`. -/
def ReservePayingCoin (s : State) (auctionId : Nat) (bidderAddr : Address)
    (payingCoin : Coin) : State × Option Err :=
  match NewCoins payingCoin with
  | none => (s, some Err.crashed)
  | some coins =>
    match SendCoins s.balances bidderAddr (Address.payingReserve auctionId) coins with
    | none => (s, some Err.reserveFailed)
    | some bal => ({ s with balances := bal }, none)

/-- The map `allowedBiddersMap` built in `PlaceBid`: a later entry of the
list overwrites an earlier one of the same bidder. -/
def allowedBiddersMap (abs : List AllowedBidder) : String → Option Int :=
  abs.foldl (fun m ab => fun k => if k = ab.bidder then some ab.maxBidAmount else m k)
    (fun _ => none)

/-- The loop of `HandleFixedPriceBid` over the bids of the auction: the
exchanged selling amounts of the bids of `bidder`, added to `total`. -/
def totalBidAmtLoop (bidder : String) : List Bid → Int → Option Int
  | [], total => some total
  | b :: bs, total =>
    if b.bidder = bidder then
      match quoTruncateInt b.coin.amount b.price with
      | none => none
      | some exchangedSellingAmt => totalBidAmtLoop bidder bs (total + exchangedSellingAmt)
    else totalBidAmtLoop bidder bs total

/-- `Keeper.HandleFixedPriceBid`. -/
def HandleFixedPriceBid (s : State) (auction : Auction) (bid : Bid) (maxBidAmt : Int) :
    State × Option Err :=
  if bid.coin.denom ≠ auction.payingCoinDenom then (s, some Err.incorrectCoinDenom)
  else if ¬ (bid.price.Equal auction.startPrice = true) then (s, some Err.invalidStartPrice)
  else
    match quoTruncateInt bid.coin.amount bid.price with
    | none => (s, some Err.crashed)
    | some exchangedSellingAmt =>
      match NewCoin auction.sellingCoin.denom exchangedSellingAmt with
      | none => (s, some Err.crashed)
      | some exchangedSellingCoin =>
        match auction.remainingSellingCoin.IsLT exchangedSellingCoin with
        | none => (s, some Err.crashed)
        | some true => (s, some Err.insufficientRemainingAmount)
        | some false =>
          match totalBidAmtLoop bid.bidder (GetBidsByAuctionId s auction.id) 0 with
          | none => (s, some Err.crashed)
          | some total =>
            let totalBidAmt := total + exchangedSellingAmt
            if totalBidAmt > maxBidAmt then (s, some Err.overMaxBidAmountLimit)
            else
              match auction.remainingSellingCoin.Sub exchangedSellingCoin with
              | none => (s, some Err.crashed)
              | some remaining =>
                let s1 := SetAuction s (auction.SetRemainingSellingCoin remaining)
                ({ s1 with events := s1.events ++ [Event.bidAmount exchangedSellingCoin] }, none)

/-- `Keeper.HandleBatchBid`. -/
def HandleBatchBid (s : State) (auction : Auction) (bid : Bid) : State × Option Err :=
  if bid.type = BidType.batchWorth then
    if bid.coin.denom ≠ auction.payingCoinDenom then (s, some Err.incorrectCoinDenom)
    else (s, none)
  else if bid.type = BidType.batchMany then
    if bid.coin.denom ≠ auction.sellingCoin.denom then (s, some Err.incorrectCoinDenom)
    else (s, none)
  else (s, none)

/-- The request of `PlaceBid`.  The spec gives the request a bid type;
`PlaceBid` reads the auction id, the bidder, the price and the coin. -/
structure MsgPlaceBid where
  auctionId : Nat
  bidder : String
  price : Dec
  coin : Coin
  bidType : BidType
deriving DecidableEq, Repr

/-- The end of `PlaceBid`: the bid is stored and the event emitted. -/
def storeBid (s : State) (msg : MsgPlaceBid) (auction : Auction) (bid : Bid) :
    State × Except Err Bid :=
  let s1 := SetBid s bid
  ({ s1 with events := s1.events ++ [Event.placeBid auction.id msg.bidder msg.price msg.coin] },
    Except.ok bid)

/-- `Keeper.PlaceBid`. -/
def PlaceBid (s : State) (msg : MsgPlaceBid) : State × Except Err Bid :=
  match GetAuction s msg.auctionId with
  | none => (s, Except.error Err.auctionNotFound)
  | some auction =>
    if auction.status ≠ AuctionStatus.started then (s, Except.error Err.invalidAuctionStatus)
    else
      match ReservePayingCoin s auction.id (Address.account msg.bidder) msg.coin with
      | (s1, some err) => (s1, Except.error err)
      | (s1, none) =>
        match allowedBiddersMap auction.allowedBidders msg.bidder with
        | none => (s1, Except.error Err.notAllowedBidder)
        | some maxBidAmt =>
          let (s2, bidId) := GetNextBidIdWithUpdate s1 auction.id
          let bid : Bid :=
            { auctionId := auction.id, id := bidId, bidder := msg.bidder, price := msg.price,
              coin := msg.coin, height := uint64 s2.blockHeight, isWinner := false,
              isMatched := false, type := BidType.unspecified }
          match auction.type with
          | AuctionType.fixedPrice =>
            match HandleFixedPriceBid s2 auction bid maxBidAmt with
            | (s3, some err) => (s3, Except.error err)
            | (s3, none) => storeBid s3 msg auction { bid with isWinner := true }
          | AuctionType.batch =>
            match HandleBatchBid s2 auction bid with
            | (s3, some err) => (s3, Except.error err)
            | (s3, none) => storeBid s3 msg auction { bid with isWinner := false }
          | AuctionType.unspecified => storeBid s2 msg auction bid

/-- The request of `ModifyBid`. -/
structure MsgModifyBid where
  auctionId : Nat
  bidId : Nat
  price : Dec
  coin : Coin
deriving DecidableEq, Repr

/-- `Keeper.ModifyBid`. -/
def ModifyBid (s : State) (msg : MsgModifyBid) : State × Except Err Unit :=
  match GetAuction s msg.auctionId with
  | none => (s, Except.error Err.auctionNotFound)
  | some auction =>
    if auction.type ≠ AuctionType.batch then (s, Except.error Err.incorrectAuctionType)
    else
      match GetBid s msg.auctionId msg.bidId with
      | none => (s, Except.error Err.bidNotFound)
      | some bid =>
        if bid.coin.denom ≠ msg.coin.denom then (s, Except.error Err.incorrectCoinDenom)
        else
          match quoTruncateInt bid.coin.amount bid.price with
          | none => (s, Except.error Err.crashed)
          | some exchangedSellingAmtBefore =>
            match quoTruncateInt msg.coin.amount msg.price with
            | none => (s, Except.error Err.crashed)
            | some exchangedSellingAmt =>
              if exchangedSellingAmtBefore < exchangedSellingAmt then
                (s, Except.error Err.invalidRequest)
              else
                (SetBid s { bid with price := msg.price, coin := msg.coin,
                                     height := uint64 s.blockHeight }, Except.ok ())

/-! ## The bids of the conversion tests -/

/-- A bid with only price and coin set, as the tests of `types/bid_test.go`
build it. -/
def testBid (price : Int) (denom : String) (amount : Int) : Bid :=
  { auctionId := 0, id := 0, bidder := "", price := ⟨price⟩, coin := ⟨denom, amount⟩,
    height := 0, isWinner := false, isMatched := false, type := BidType.unspecified }

/-! ## Traces and sample states -/

/-- A call of the keeper. -/
inductive Op where
  | placeBid (msg : MsgPlaceBid)
  | modifyBid (msg : MsgModifyBid)
deriving DecidableEq, Repr

/-- The state after one call, whether it succeeds or fails. -/
def step (s : State) : Op → State
  | Op.placeBid msg => (PlaceBid s msg).1
  | Op.modifyBid msg => (ModifyBid s msg).1

/-- The state after a sequence of calls. -/
def run (s : State) (ops : List Op) : State := ops.foldl step s

/-- A sequence of `PlaceBid` calls: the final state and the results in call
order. -/
def placeAll : State → List MsgPlaceBid → State × List (Except Err Bid)
  | s, [] => (s, [])
  | s, msg :: msgs =>
    ((placeAll (PlaceBid s msg).1 msgs).1, (PlaceBid s msg).2 :: (placeAll (PlaceBid s msg).1 msgs).2)

/-- The ids of the bids returned for one auction, in call order. -/
def returnedIds (auctionId : Nat) : List (Except Err Bid) → List Nat
  | [] => []
  | Except.ok b :: rs =>
    if b.auctionId = auctionId then b.id :: returnedIds auctionId rs
    else returnedIds auctionId rs
  | Except.error _ :: rs => returnedIds auctionId rs

/-- The exchanged selling amount of a stored bid as the spec writes it:
`floor(coin.amount / price)`. -/
def sellingAmount (b : Bid) : Int := ⌊(b.coin.amount : ℚ) / b.price.toRat⌋

/-- The sum of `floor(coin.amount / price)` over the stored bids of one
bidder in one auction. -/
def bidderTotal (bids : List Bid) (auctionId : Nat) (bidder : String) : Int :=
  (((bids.filter (fun b => decide (b.auctionId = auctionId))).filter
    (fun b => decide (b.bidder = bidder))).map sellingAmount).sum

/-- A started fixed-price auction: price 0.5, one million coins of denom1
for sale against denom2, and one allowed bidder. -/
def fixedAuction : Auction :=
  { id := 1, type := AuctionType.fixedPrice, status := AuctionStatus.started,
    allowedBidders := [⟨"alice", 1000⟩], startPrice := ⟨5 * 10 ^ 17⟩,
    payingCoinDenom := "denom2", sellingCoin := ⟨"denom1", 1000000⟩,
    remainingSellingCoin := ⟨"denom1", 1000000⟩ }

/-- A started batch auction with the same coins. -/
def batchAuction : Auction :=
  { fixedAuction with id := 2, type := AuctionType.batch }

/-- A fixed-price auction that has not started. -/
def standByAuction : Auction :=
  { fixedAuction with id := 3, status := AuctionStatus.standBy }

/-- A state with the three auctions, no bid, and 10000 coins of each of the
two denominations in the account of alice. -/
def genesis : State :=
  { auctions := [fixedAuction, batchAuction, standByAuction], bids := [],
    lastBidId := fun _ => 0,
    balances := fun a _ => if a = Address.account "alice" then 10000 else 0,
    blockHeight := 7, events := [] }

/-- A request of alice at a given auction, price and coin. -/
def aliceBid (auctionId : Nat) (price : Int) (denom : String) (amount : Int)
    (bidType : BidType) : MsgPlaceBid :=
  { auctionId := auctionId, bidder := "alice", price := ⟨price⟩, coin := ⟨denom, amount⟩,
    bidType := bidType }

/-- The state after alice has placed 100 coins of denom2 at price 1 on the
batch auction: her bid is stored under id 1. -/
def batchState : State :=
  (PlaceBid genesis (aliceBid 2 (10 ^ 18) "denom2" 100 BidType.batchWorth)).1

/-- The invariant of a fixed-price auction with start price `P` and allowed
bidders `L` along a sequence of calls: the auction is stored with its type,
price and list; its stored bids are at price `P`, of a non-negative amount
and of an allowed bidder; and no allowed bidder with a non-negative ceiling
exceeds it. -/
def FixedInv (aid : Nat) (P : Dec) (L : List AllowedBidder) (s : State) : Prop :=
  (∃ au, GetAuction s aid = some au ∧ au.type = AuctionType.fixedPrice ∧
    au.startPrice = P ∧ au.allowedBidders = L) ∧
  (∀ b ∈ s.bids, b.auctionId = aid →
    b.price = P ∧ 0 ≤ b.coin.amount ∧ allowedBiddersMap L b.bidder ≠ none) ∧
  (0 < P.i → ∀ w m, allowedBiddersMap L w = some m → 0 ≤ m → bidderTotal s.bids aid w ≤ m)

/-- Four calls on the fixed-price auction: alice pays 100 and then 400 coins
at price 0.5 (200 and 800 selling coins, her ceiling of 1000), a third bid
is over the ceiling, and a modification of her first bid is attempted. -/
def sampleOps : List Op :=
  [Op.placeBid (aliceBid 1 (5 * 10 ^ 17) "denom2" 100 BidType.unspecified),
   Op.placeBid (aliceBid 1 (5 * 10 ^ 17) "denom2" 400 BidType.unspecified),
   Op.placeBid (aliceBid 1 (5 * 10 ^ 17) "denom2" 1 BidType.unspecified),
   Op.modifyBid ⟨1, 1, ⟨5 * 10 ^ 17⟩, ⟨"denom2", 1000⟩⟩]

/-- Three requests on the fixed-price auction: the second one quotes a wrong
price and fails after its id is taken. -/
def sampleMsgs : List MsgPlaceBid :=
  [aliceBid 1 (5 * 10 ^ 17) "denom2" 100 BidType.unspecified,
   aliceBid 1 (6 * 10 ^ 17) "denom2" 100 BidType.unspecified,
   aliceBid 1 (5 * 10 ^ 17) "denom2" 100 BidType.unspecified]

/-- A request of bob, who is not an allowed bidder of the fixed-price
auction; a coin of amount 0 needs no balance. -/
def bobBid : MsgPlaceBid :=
  { auctionId := 1, bidder := "bob", price := ⟨5 * 10 ^ 17⟩, coin := ⟨"denom2", 0⟩,
    bidType := BidType.unspecified }

/-- The state after alice has paid 100 coins of denom2 at price 0.5 on the
fixed-price auction: her bid is stored under id 1. -/
def fixedState : State :=
  (PlaceBid genesis (aliceBid 1 (5 * 10 ^ 17) "denom2" 100 BidType.unspecified)).1

/-- The bid `PlaceBid` builds from a request of alice on the fixed-price
auction at price 0.5, before the handler runs. -/
def aliceFixedBid (id : Nat) (amount : Int) : Bid :=
  { auctionId := 1, id := id, bidder := "alice", price := ⟨5 * 10 ^ 17⟩,
    coin := ⟨"denom2", amount⟩, height := 7, isWinner := false, isMatched := false,
    type := BidType.unspecified }

/-- The fixed-price auction with the start price `10^-18`, the smallest
positive decimal. -/
def dustAuction : Auction := { fixedAuction with startPrice := ⟨1⟩ }

/-- A bid of alice of `10^70` coins of denom2 at the price `10^-18`. -/
def hugeBid : Bid := { aliceFixedBid 1 (10 ^ 70) with price := ⟨1⟩ }

/-- The fixed-price auction with 150 selling coins left. -/
def scarceAuction : Auction :=
  { fixedAuction with remainingSellingCoin := ⟨"denom1", 150⟩ }

/-! ## Arithmetic of the conversions -/

theorem ediv_ediv_of_pos (a : Int) {b c : Int} (hb : 0 < b) (hc : 0 < c) :
    a / b / c = a / (b * c) := by
  apply eq_of_forall_le_iff
  intro z
  rw [Int.le_ediv_iff_mul_le hc, Int.le_ediv_iff_mul_le hb,
    Int.le_ediv_iff_mul_le (mul_pos hb hc)]
  constructor <;> intro h <;> nlinarith [h]

theorem precisionReuse_pos : 0 < precisionReuse := by decide

/-- The range of an `sdk.Int` of 255 bits, scaled by `10^18`, is within the
range of an `sdk.Dec`. -/
theorem intRange_mul_precision : (2 : Int) ^ 255 * precisionReuse ≤ 2 ^ 315 := by
  unfold precisionReuse
  norm_num

theorem decOverflow_of_nonneg (x : Int) (hx : 0 ≤ x) :
    decOverflow x = true ↔ (2 : Int) ^ 315 ≤ x := by
  have hn : (x.natAbs : Int) = x := Int.natAbs_of_nonneg hx
  have hpow : (2 : Nat) ^ 255 * 2 ^ 60 = 2 ^ 315 := by norm_num
  unfold decOverflow DecimalPrecisionBits
  rw [decide_eq_true_eq, hpow]
  constructor
  · intro h
    have h1 : ((2 ^ 315 : Nat) : Int) ≤ (x.natAbs : Int) := by exact_mod_cast h
    rw [hn] at h1
    exact_mod_cast h1
  · intro h
    rw [← hn] at h
    exact_mod_cast h

/-- For a non-negative amount and a positive price the quotient chopped to 18
decimals is `a * 10^36 / P`; `QuoTruncate` panics when it does not fit, and
otherwise the two truncations compose to one integer division. -/
theorem quoTruncateInt_eval (a P : Int) (ha : 0 ≤ a) (hP : 0 < P) :
    quoTruncateInt a ⟨P⟩ =
      if (2 : Int) ^ 315 ≤ a * precisionReuse * precisionReuse / P then none
      else some (a * precisionReuse / P) := by
  have hS := precisionReuse_pos
  have h1 : 0 ≤ a * precisionReuse * precisionReuse * precisionReuse := by positivity
  have h2 : 0 ≤ a * precisionReuse * precisionReuse * precisionReuse / P :=
    Int.ediv_nonneg h1 hP.le
  have hchop : chopPrecisionAndTruncate
      (Int.tdiv (a * precisionReuse * precisionReuse * precisionReuse) P)
        = a * precisionReuse * precisionReuse / P := by
    unfold chopPrecisionAndTruncate
    rw [Int.tdiv_eq_ediv h1 hP.le, Int.tdiv_eq_ediv h2 hS.le, ediv_ediv_of_pos _ hP hS,
      Int.mul_ediv_mul_of_pos_left _ _ hS]
  have h3 : 0 ≤ a * precisionReuse * precisionReuse / P :=
    Int.ediv_nonneg (by positivity) hP.le
  have hfin : chopPrecisionAndTruncate (a * precisionReuse * precisionReuse / P)
      = a * precisionReuse / P := by
    unfold chopPrecisionAndTruncate
    rw [Int.tdiv_eq_ediv h3 hS.le, ediv_ediv_of_pos _ hP hS,
      Int.mul_ediv_mul_of_pos_left _ _ hS]
  simp only [quoTruncateInt, ToDec, Dec.QuoTruncate, if_neg hP.ne', hchop]
  by_cases hov : (2 : Int) ^ 315 ≤ a * precisionReuse * precisionReuse / P
  · rw [if_pos ((decOverflow_of_nonneg _ h3).mpr hov), if_pos hov]
    rfl
  · have hno : ¬ decOverflow (a * precisionReuse * precisionReuse / P) = true :=
      fun h => hov ((decOverflow_of_nonneg _ h3).mp h)
    rw [if_neg hno, if_neg hov]
    simp only [Option.map_some', Dec.TruncateInt, hfin]

/-- When `QuoTruncate` returns, the result is the integer quotient. -/
theorem quoTruncateInt_some (a P ex : Int) (ha : 0 ≤ a) (hP : 0 < P)
    (h : quoTruncateInt a ⟨P⟩ = some ex) : ex = a * precisionReuse / P := by
  rw [quoTruncateInt_eval a P ha hP] at h
  split at h
  · simp at h
  · simp only [Option.some.injEq] at h
    exact h.symm

/-- A quotient that fits in an `sdk.Int` of 255 bits does not overflow the
decimal. -/
theorem chopped_lt_of_fit (a P : Int) (hP : 0 < P)
    (hfit : a * precisionReuse / P < 2 ^ 255) :
    a * precisionReuse * precisionReuse / P < 2 ^ 315 := by
  have hS := precisionReuse_pos
  have hlt : a * precisionReuse < (a * precisionReuse / P + 1) * P :=
    Int.lt_ediv_add_one_mul_self _ hP
  have h1 : a * precisionReuse * precisionReuse
      < ((a * precisionReuse / P + 1) * precisionReuse) * P := by nlinarith
  have h2 : a * precisionReuse * precisionReuse / P
      < (a * precisionReuse / P + 1) * precisionReuse :=
    Int.ediv_lt_of_lt_mul hP h1
  have h3 : (a * precisionReuse / P + 1) * precisionReuse ≤ 2 ^ 255 * precisionReuse :=
    Int.mul_le_mul_of_nonneg_right (by omega) hS.le
  exact lt_of_lt_of_le h2 (le_trans h3 intRange_mul_precision)

/-- For a non-negative amount, a positive price and a quotient that fits in
an `sdk.Int`, the two truncations compose to one integer division. -/
theorem quoTruncateInt_of_pos (a P : Int) (ha : 0 ≤ a) (hP : 0 < P)
    (hfit : a * precisionReuse / P < 2 ^ 255) :
    quoTruncateInt a ⟨P⟩ = some (a * precisionReuse / P) := by
  rw [quoTruncateInt_eval a P ha hP, if_neg (not_le.mpr (chopped_lt_of_fit a P hP hfit))]

/-- A chopped quotient beyond the range of the decimal makes `QuoTruncate`
panic. -/
theorem quoTruncateInt_overflow (a P : Int) (ha : 0 ≤ a) (hP : 0 < P)
    (hov : (2 : Int) ^ 315 ≤ a * precisionReuse * precisionReuse / P) :
    quoTruncateInt a ⟨P⟩ = none := by
  rw [quoTruncateInt_eval a P ha hP, if_pos hov]

theorem floor_div_toRat (a P : Int) (hP : 0 < P) :
    ⌊(a : ℚ) / (Dec.toRat ⟨P⟩)⌋ = a * precisionReuse / P := by
  have hPq : (P : ℚ) ≠ 0 := by exact_mod_cast hP.ne'
  have e : (a : ℚ) / (Dec.toRat ⟨P⟩) = ((a * precisionReuse : Int) : ℚ) / ((P.toNat : Nat) : ℚ) := by
    have : ((P.toNat : Nat) : ℚ) = (P : ℚ) := by
      have := Int.toNat_of_nonneg hP.le
      exact_mod_cast this
    rw [this]
    simp only [Dec.toRat, precisionReuse]
    push_cast
    rw [div_div_eq_mul_div]
    norm_num
  rw [e, Rat.floor_intCast_div_natCast, Int.toNat_of_nonneg hP.le]

/-- The product of an integer and a decimal is exact; `Mul` panics when it
does not fit in the decimal. -/
theorem mul_eval (a P : Int) (ha : 0 ≤ a) (hP : 0 ≤ P) :
    (ToDec a).Mul ⟨P⟩ = if (2 : Int) ^ 315 ≤ a * P then none else some ⟨a * P⟩ := by
  have hS := precisionReuse_pos
  have h0 : 0 ≤ a * P := mul_nonneg ha hP
  have hmul : chopPrecisionAndRound (a * precisionReuse * P) = a * P := by
    have hnn : 0 ≤ a * precisionReuse * P := by positivity
    have e : a * precisionReuse * P = (a * P) * precisionReuse := by ring
    simp only [chopPrecisionAndRound, if_neg (not_lt.mpr hnn), chopPrecisionAndRoundNonNeg]
    rw [Int.tmod_eq_emod hnn hS.le, Int.tdiv_eq_ediv hnn hS.le, e, Int.mul_emod_left,
      Int.mul_ediv_cancel _ hS.ne']
    simp
  simp only [ToDec, Dec.Mul, hmul]
  by_cases hov : (2 : Int) ^ 315 ≤ a * P
  · rw [if_pos ((decOverflow_of_nonneg _ h0).mpr hov), if_pos hov]
  · have hno : ¬ decOverflow (a * P) = true :=
      fun h => hov ((decOverflow_of_nonneg _ h0).mp h)
    rw [if_neg hno, if_neg hov]

/-- `Ceil` then `TruncateInt` of a non-negative decimal give the ceiling of
the number it stands for. -/
theorem ceilTruncate_of_nonneg (x : Int) (h0 : 0 ≤ x) :
    (Dec.Ceil ⟨x⟩).TruncateInt = ⌈Dec.toRat ⟨x⟩⌉ := by
  have hS := precisionReuse_pos
  simp only [Dec.Ceil, Dec.TruncateInt, chopPrecisionAndTruncate]
  rw [Int.tmod_eq_emod h0 hS.le, Int.tdiv_eq_ediv h0 hS.le]
  have hq0 : 0 ≤ x / precisionReuse := Int.ediv_nonneg h0 hS.le
  have hr0 : 0 ≤ x % precisionReuse := Int.emod_nonneg _ hS.ne'
  have hrlt : x % precisionReuse < precisionReuse := Int.emod_lt_of_pos _ hS
  have hdiv := Int.ediv_add_emod x precisionReuse
  have hx : Dec.toRat ⟨x⟩ = (x : ℚ) / ((precisionReuse : Int) : ℚ) := by
    simp only [Dec.toRat, precisionReuse]
    push_cast
    ring
  have hSq : (0 : ℚ) < ((precisionReuse : Int) : ℚ) := by exact_mod_cast hS
  symm
  rw [hx, Int.ceil_eq_iff]
  by_cases hr : x % precisionReuse = 0
  · rw [if_pos hr]
    simp only []
    rw [Int.tdiv_eq_ediv (by positivity) hS.le, Int.mul_ediv_cancel _ hS.ne']
    have hd : x = precisionReuse * (x / precisionReuse) := by omega
    have hc : ((x / precisionReuse : Int) : ℚ) * ((precisionReuse : Int) : ℚ) = (x : ℚ) := by
      rw [← Int.cast_mul]; congr 1; linarith
    constructor
    · rw [lt_div_iff₀ hSq]; linarith
    · rw [div_le_iff₀ hSq]; linarith
  · rw [if_neg hr, if_neg (not_lt.mpr hr0)]
    simp only []
    rw [Int.tdiv_eq_ediv (by positivity) hS.le, Int.mul_ediv_cancel _ hS.ne']
    have hrpos : 0 < x % precisionReuse := lt_of_le_of_ne hr0 (Ne.symm hr)
    constructor
    · rw [lt_div_iff₀ hSq]
      have h : (x / precisionReuse + 1 - 1) * precisionReuse < x := by nlinarith
      have := (Int.cast_lt (R := ℚ)).mpr h
      push_cast at this ⊢
      linarith
    · rw [div_le_iff₀ hSq]
      have h : x ≤ (x / precisionReuse + 1) * precisionReuse := by nlinarith
      have := (Int.cast_le (R := ℚ)).mpr h
      push_cast at this ⊢
      linarith

theorem toRat_mul (a P : Int) : Dec.toRat ⟨a * P⟩ = (a : ℚ) * Dec.toRat ⟨P⟩ := by
  simp only [Dec.toRat]
  push_cast
  ring

/-- The paying amount of a coin in another denom: `Mul` panics when the
product does not fit in the decimal, and otherwise the result is the ceiling
of the product. -/
theorem payingAmount_eval (a P : Int) (ha : 0 ≤ a) (hP : 0 ≤ P) :
    (((ToDec a).Mul ⟨P⟩).map Dec.Ceil).map Dec.TruncateInt =
      if (2 : Int) ^ 315 ≤ a * P then none else some ⌈(a : ℚ) * (Dec.toRat ⟨P⟩)⌉ := by
  rw [mul_eval a P ha hP]
  split
  · rfl
  · simp only [Option.map_some', ceilTruncate_of_nonneg _ (mul_nonneg ha hP), toRat_mul]

/-- A product whose ceiling fits in an `sdk.Int` of 255 bits does not
overflow the decimal. -/
theorem product_lt_of_fit (a P : Int)
    (hfit : ⌈(a : ℚ) * (Dec.toRat ⟨P⟩)⌉ < 2 ^ 255) : a * P < 2 ^ 315 := by
  have hS := precisionReuse_pos
  have hx : (a : ℚ) * Dec.toRat ⟨P⟩ = ((a * P : Int) : ℚ) / ((precisionReuse : Int) : ℚ) := by
    simp only [Dec.toRat, precisionReuse]
    push_cast
    ring
  have hSq : (0 : ℚ) < ((precisionReuse : Int) : ℚ) := by exact_mod_cast hS
  have hle := Int.le_ceil ((a : ℚ) * (Dec.toRat ⟨P⟩))
  rw [hx, div_le_iff₀ hSq] at hle
  have h1 : a * P ≤ ⌈((a * P : Int) : ℚ) / ((precisionReuse : Int) : ℚ)⌉ * precisionReuse := by
    exact_mod_cast hle
  rw [← hx] at h1
  have h2 : ⌈(a : ℚ) * (Dec.toRat ⟨P⟩)⌉ * precisionReuse < 2 ^ 255 * precisionReuse :=
    Int.mul_lt_mul_of_pos_right hfit hS
  exact lt_of_le_of_lt h1 (lt_of_lt_of_le h2 intRange_mul_precision)


/-! ## The key-value stores -/

theorem kvGet_key {α κ : Type} [DecidableEq κ] (key : α → κ) (l : List α) (k : κ) (a : α)
    (h : kvGet key l k = some a) : key a = k ∧ a ∈ l := by
  unfold kvGet at h
  have h1 := List.find?_some h
  have h2 := List.mem_of_find?_eq_some h
  exact ⟨of_decide_eq_true h1, h2⟩

theorem kvGet_kvSet {α κ : Type} [DecidableEq κ] (key : α → κ) (l : List α) (a : α) (k : κ) :
    kvGet key (kvSet key l a) k = if key a = k then some a else kvGet key l k := by
  induction l with
  | nil =>
    by_cases h : key a = k <;> simp [kvSet, kvGet, h]
  | cons x xs ih =>
    unfold kvGet at ih ⊢
    by_cases hx : key x = key a
    · rw [kvSet, if_pos hx]
      by_cases h : key a = k
      · rw [if_pos h, List.find?_cons_of_pos _ (by simpa using h)]
      · rw [if_neg h, List.find?_cons_of_neg _ (by simpa using h),
          List.find?_cons_of_neg _ (by simpa [hx] using h)]
    · rw [kvSet, if_neg hx]
      by_cases h : key x = k
      · have hak : ¬ key a = k := fun e => hx (h.trans e.symm)
        rw [if_neg hak, List.find?_cons_of_pos _ (by simpa using h),
          List.find?_cons_of_pos _ (by simpa using h)]
      · rw [List.find?_cons_of_neg _ (by simpa using h), ih,
          List.find?_cons_of_neg _ (by simpa using h)]

theorem mem_kvSet {α κ : Type} [DecidableEq κ] (key : α → κ) (l : List α) (a x : α)
    (h : x ∈ kvSet key l a) : x = a ∨ x ∈ l := by
  induction l with
  | nil => simp [kvSet] at h; exact Or.inl h
  | cons y ys ih =>
    by_cases hy : key y = key a
    · simp only [kvSet, hy, if_true, List.mem_cons] at h
      rcases h with h | h
      · exact Or.inl h
      · exact Or.inr (List.mem_cons_of_mem _ h)
    · simp only [kvSet, hy, if_false, List.mem_cons] at h
      rcases h with h | h
      · exact Or.inr (by rw [h]; exact List.mem_cons_self _ _)
      · rcases ih h with h | h
        · exact Or.inl h
        · exact Or.inr (List.mem_cons_of_mem _ h)

theorem GetAuction_id (s : State) (k : Nat) (a : Auction) (h : GetAuction s k = some a) :
    a.id = k := (kvGet_key _ _ _ _ h).1

/-! ## The steps of the keeper -/

theorem ReservePayingCoin_error (s s1 : State) (k : Nat) (addr : Address) (c : Coin) (e : Err)
    (h : ReservePayingCoin s k addr c = (s1, some e)) : s1 = s := by
  unfold ReservePayingCoin at h
  split at h
  · simp only [Prod.mk.injEq] at h; exact h.1.symm
  · split at h
    · simp only [Prod.mk.injEq] at h; exact h.1.symm
    · simp at h

theorem ReservePayingCoin_ok (s s1 : State) (k : Nat) (addr : Address) (c : Coin)
    (h : ReservePayingCoin s k addr c = (s1, none)) :
    0 ≤ c.amount ∧ ∃ bal, s1 = { s with balances := bal } := by
  unfold ReservePayingCoin at h
  split at h
  · simp at h
  · rename_i coins hc
    split at h
    · simp at h
    · rename_i bal hb
      simp only [Prod.mk.injEq, and_true] at h
      refine ⟨?_, bal, h.symm⟩
      unfold NewCoins at hc
      split at hc
      · omega
      · split at hc
        · simp at hc
        · omega

theorem HandleFixedPriceBid_error (s s1 : State) (au : Auction) (b : Bid) (m : Int) (e : Err)
    (h : HandleFixedPriceBid s au b m = (s1, some e)) : s1 = s := by
  unfold HandleFixedPriceBid at h
  repeat' split at h
  all_goals try simp only [] at h
  all_goals try split at h
  all_goals first
    | (simp only [Prod.mk.injEq] at h; exact h.1.symm)
    | simp at h

theorem HandleFixedPriceBid_ok (s s1 : State) (au : Auction) (b : Bid) (m : Int)
    (h : HandleFixedPriceBid s au b m = (s1, none)) :
    ∃ ex total : Int,
      b.coin.denom = au.payingCoinDenom ∧ b.price = au.startPrice ∧
      quoTruncateInt b.coin.amount b.price = some ex ∧ 0 ≤ ex ∧
      au.remainingSellingCoin.denom = au.sellingCoin.denom ∧
      ex ≤ au.remainingSellingCoin.amount ∧
      totalBidAmtLoop b.bidder (GetBidsByAuctionId s au.id) 0 = some total ∧
      total + ex ≤ m ∧
      s1 = { s with
        auctions := kvSet Auction.id s.auctions
          { au with remainingSellingCoin :=
              ⟨au.remainingSellingCoin.denom, au.remainingSellingCoin.amount - ex⟩ },
        events := s.events ++ [Event.bidAmount ⟨au.sellingCoin.denom, ex⟩] } := by
  unfold HandleFixedPriceBid at h
  split at h
  · simp at h
  rename_i hden
  split at h
  · simp at h
  rename_i hprice
  split at h
  · simp at h
  rename_i ex hex
  split at h
  · simp at h
  rename_i exCoin hcoin
  split at h
  · simp at h
  · simp at h
  rename_i hlt
  split at h
  · simp at h
  rename_i total htotal
  simp only [] at h
  split at h
  · simp at h
  rename_i hmax
  split at h
  · simp at h
  rename_i remaining hsub
  simp only [Prod.mk.injEq, and_true] at h
  have hden' : b.coin.denom = au.payingCoinDenom := by
    by_contra hc; exact hden hc
  have hprice' : b.price = au.startPrice := by
    have : b.price.Equal au.startPrice = true := by
      by_contra hc; exact hprice hc
    have hi : b.price.i = au.startPrice.i := of_decide_eq_true this
    cases hb : b.price; cases ha : au.startPrice
    rw [hb, ha] at hi
    simp only at hi
    rw [hi]
  unfold NewCoin at hcoin
  split at hcoin
  · simp at hcoin
  rename_i hexnn
  simp only [Option.some.injEq] at hcoin
  subst hcoin
  unfold Coin.IsLT at hlt
  split at hlt
  · simp at hlt
  rename_i hd
  simp only [Option.some.injEq, decide_eq_false_iff_not] at hlt
  unfold Coin.Sub at hsub
  rw [if_neg hd] at hsub
  split at hsub
  · simp at hsub
  simp only [Option.some.injEq] at hsub
  subst hsub
  have hd' : au.remainingSellingCoin.denom = au.sellingCoin.denom := by
    by_contra hc; exact hd hc
  refine ⟨ex, total, hden', hprice', hex, by omega, hd', by omega, htotal, by omega, ?_⟩
  rw [← h]
  rfl

theorem HandleBatchBid_state (s : State) (au : Auction) (b : Bid) :
    (HandleBatchBid s au b).1 = s := by
  unfold HandleBatchBid
  repeat' split
  all_goals rfl


theorem PlaceBid_error (s s1 : State) (msg : MsgPlaceBid) (e : Err)
    (h : PlaceBid s msg = (s1, Except.error e)) :
    s1.bids = s.bids ∧ s1.auctions = s.auctions ∧ s1.blockHeight = s.blockHeight ∧
    (s1.lastBidId = s.lastBidId ∨
      s1.lastBidId = fun a =>
        if a = msg.auctionId then (s.lastBidId msg.auctionId + 1) % 2 ^ 64
        else s.lastBidId a) := by
  unfold PlaceBid at h
  split at h
  · simp only [Prod.mk.injEq] at h
    rw [← h.1]; exact ⟨rfl, rfl, rfl, Or.inl rfl⟩
  rename_i au hau
  have hid := GetAuction_id _ _ _ hau
  split at h
  · simp only [Prod.mk.injEq] at h
    rw [← h.1]; exact ⟨rfl, rfl, rfl, Or.inl rfl⟩
  split at h
  · rename_i s2 err hres
    have := ReservePayingCoin_error _ _ _ _ _ _ hres
    simp only [Prod.mk.injEq] at h
    rw [← h.1, this]; exact ⟨rfl, rfl, rfl, Or.inl rfl⟩
  rename_i s2 hres
  obtain ⟨_, bal, hs2⟩ := ReservePayingCoin_ok _ _ _ _ _ hres
  split at h
  · simp only [Prod.mk.injEq] at h
    rw [← h.1, hs2]; exact ⟨rfl, rfl, rfl, Or.inl rfl⟩
  rename_i m hm
  simp only [GetNextBidIdWithUpdate, GetLastBidId, SetBidId] at h
  split at h
  · split at h
    · rename_i s3 err hh
      have := HandleFixedPriceBid_error _ _ _ _ _ _ hh
      simp only [Prod.mk.injEq] at h
      rw [← h.1, this, hs2, hid]; exact ⟨rfl, rfl, rfl, Or.inr rfl⟩
    · simp [storeBid] at h
  · split at h
    · rename_i s3 err hh
      have hst := congrArg Prod.fst hh
      rw [HandleBatchBid_state] at hst
      simp only [Prod.mk.injEq] at h hst
      rw [← h.1, ← hst, hs2, hid]; exact ⟨rfl, rfl, rfl, Or.inr rfl⟩
    · simp [storeBid] at h
  · simp [storeBid] at h

theorem PlaceBid_ok (s s1 : State) (msg : MsgPlaceBid) (b : Bid)
    (h : PlaceBid s msg = (s1, Except.ok b)) :
    ∃ (au : Auction) (m : Int),
      GetAuction s msg.auctionId = some au ∧ au.id = msg.auctionId ∧
      au.status = AuctionStatus.started ∧ 0 ≤ msg.coin.amount ∧
      allowedBiddersMap au.allowedBidders msg.bidder = some m ∧
      b = { auctionId := au.id, id := (s.lastBidId au.id + 1) % 2 ^ 64, bidder := msg.bidder,
            price := msg.price, coin := msg.coin, height := uint64 s.blockHeight,
            isWinner := decide (au.type = AuctionType.fixedPrice), isMatched := false,
            type := BidType.unspecified } ∧
      s1.bids = kvSet bidKey s.bids b ∧
      s1.lastBidId = (fun a =>
        if a = au.id then (s.lastBidId au.id + 1) % 2 ^ 64 else s.lastBidId a) ∧
      s1.blockHeight = s.blockHeight ∧
      ((au.type = AuctionType.fixedPrice ∧ ∃ ex total : Int,
          msg.coin.denom = au.payingCoinDenom ∧ msg.price = au.startPrice ∧
          quoTruncateInt msg.coin.amount msg.price = some ex ∧ 0 ≤ ex ∧
          au.remainingSellingCoin.denom = au.sellingCoin.denom ∧
          ex ≤ au.remainingSellingCoin.amount ∧
          totalBidAmtLoop msg.bidder (GetBidsByAuctionId s au.id) 0 = some total ∧
          total + ex ≤ m ∧
          s1.auctions = kvSet Auction.id s.auctions
            { au with remainingSellingCoin :=
                ⟨au.remainingSellingCoin.denom, au.remainingSellingCoin.amount - ex⟩ }) ∨
       (au.type ≠ AuctionType.fixedPrice ∧ s1.auctions = s.auctions)) := by
  unfold PlaceBid at h
  split at h
  · simp at h
  rename_i au hau
  have hid := GetAuction_id _ _ _ hau
  split at h
  · simp at h
  rename_i hstat
  have hstat' : au.status = AuctionStatus.started := by
    by_contra hc; exact hstat hc
  split at h
  · simp at h
  rename_i s2 hres
  obtain ⟨hamt, bal, hs2⟩ := ReservePayingCoin_ok _ _ _ _ _ hres
  split at h
  · simp at h
  rename_i m hm
  simp only [GetNextBidIdWithUpdate, GetLastBidId, SetBidId] at h
  refine ⟨au, m, hau, hid, hstat', hamt, hm, ?_⟩
  split at h
  · rename_i htype
    split at h
    · simp at h
    rename_i s3 hh
    obtain ⟨ex, total, h1, h2, h3, h4, h5, h6, h7, h8, h9⟩ := HandleFixedPriceBid_ok _ _ _ _ _ hh
    simp only [storeBid, SetBid, Prod.mk.injEq, Except.ok.injEq] at h
    obtain ⟨hs, hb⟩ := h
    subst hs2 h9 hs hb
    exact ⟨by simp [htype], rfl, rfl, rfl,
      Or.inl ⟨htype, ex, total, h1, h2, h3, h4, h5, h6, h7, h8, rfl⟩⟩
  · rename_i htype
    split at h
    · simp at h
    rename_i s3 hh
    have hst := congrArg Prod.fst hh
    rw [HandleBatchBid_state] at hst
    simp only [storeBid, SetBid, Prod.mk.injEq, Except.ok.injEq] at h hst
    obtain ⟨hs, hb⟩ := h
    subst hs2 hst hs hb
    exact ⟨by simp [htype], rfl, rfl, rfl, Or.inr ⟨by simp [htype], rfl⟩⟩
  · rename_i htype
    simp only [storeBid, SetBid, Prod.mk.injEq, Except.ok.injEq] at h
    obtain ⟨hs, hb⟩ := h
    subst hs2 hs hb
    exact ⟨by simp [htype], rfl, rfl, rfl, Or.inr ⟨by simp [htype], rfl⟩⟩

/-! ## The last bid id along a sequence of calls -/

/-- One `PlaceBid` call leaves the last bid id of an auction as it was and
returns no bid of the auction, or advances it by one and returns, if
anything, the bid with the new last bid id. -/
theorem PlaceBid_counter (aid : Nat) (s : State) (msg : MsgPlaceBid) :
    ((PlaceBid s msg).1.lastBidId aid = s.lastBidId aid ∧
        ∀ b, (PlaceBid s msg).2 = Except.ok b → b.auctionId ≠ aid) ∨
    ((PlaceBid s msg).1.lastBidId aid = (s.lastBidId aid + 1) % 2 ^ 64 ∧
        ∀ b, (PlaceBid s msg).2 = Except.ok b →
          b.auctionId = aid ∧ b.id = (s.lastBidId aid + 1) % 2 ^ 64) := by
  rcases hr : (PlaceBid s msg) with ⟨s1, r⟩
  cases r with
  | error e =>
    obtain ⟨_, _, _, hl⟩ := PlaceBid_error _ _ _ _ hr
    by_cases ha : aid = msg.auctionId
    · rcases hl with hl | hl
      · exact Or.inl ⟨by rw [hl], fun b hb => by simp at hb⟩
      · refine Or.inr ⟨?_, fun b hb => by simp at hb⟩
        simp only []
        rw [hl, ha]
        simp
    · refine Or.inl ⟨?_, fun b hb => by simp at hb⟩
      rcases hl with hl | hl
      · rw [hl]
      · simp only []
        rw [hl]
        simp [ha]
  | ok b =>
    obtain ⟨au, m, _, hid, _, _, _, hb, _, hl, _, _⟩ := PlaceBid_ok _ _ _ _ hr
    by_cases ha : aid = au.id
    · refine Or.inr ⟨?_, ?_⟩
      · simp only []
        rw [hl, ha]
        simp
      · intro b' hb'
        simp only [Except.ok.injEq] at hb'
        subst hb'
        rw [hb, ha]
        exact ⟨rfl, rfl⟩
    · refine Or.inl ⟨?_, ?_⟩
      · simp only []
        rw [hl]
        simp [ha]
      · intro b' hb'
        simp only [Except.ok.injEq] at hb'
        subst hb'
        rw [hb]
        exact fun h => ha h.symm

/-- One `PlaceBid` call leaves the bid store as it was, or writes the bid it
returns. -/
theorem PlaceBid_bids (s : State) (msg : MsgPlaceBid) :
    (PlaceBid s msg).1.bids = s.bids ∨
    ∃ b, (PlaceBid s msg).2 = Except.ok b ∧ (PlaceBid s msg).1.bids = kvSet bidKey s.bids b := by
  rcases hr : (PlaceBid s msg) with ⟨s1, r⟩
  cases r with
  | error e => exact Or.inl (PlaceBid_error _ _ _ _ hr).1
  | ok b =>
    obtain ⟨au, m, _, _, _, _, _, _, hbids, _⟩ := PlaceBid_ok _ _ _ _ hr
    exact Or.inr ⟨b, rfl, hbids⟩

theorem placeAll_ids (aid : Nat) (msgs : List MsgPlaceBid) :
    ∀ s : State, s.lastBidId aid + msgs.length < 2 ^ 64 →
      (∀ b ∈ s.bids, b.auctionId = aid → b.id ≤ s.lastBidId aid) →
      s.lastBidId aid ≤ (placeAll s msgs).1.lastBidId aid ∧
      (placeAll s msgs).1.lastBidId aid ≤ s.lastBidId aid + msgs.length ∧
      (∀ id ∈ returnedIds aid (placeAll s msgs).2,
        s.lastBidId aid < id ∧ id ≤ (placeAll s msgs).1.lastBidId aid) ∧
      (returnedIds aid (placeAll s msgs).2).Pairwise (fun a b => a < b) ∧
      (∀ b ∈ (placeAll s msgs).1.bids, b.auctionId = aid →
        b.id ≤ (placeAll s msgs).1.lastBidId aid) := by
  induction msgs with
  | nil =>
    intro s _ hst
    refine ⟨le_refl _, le_refl _, ?_, ?_, hst⟩
    · intro id hid
      simp [placeAll, returnedIds] at hid
    · simp [placeAll, returnedIds]
  | cons msg msgs ih =>
    intro s hlen hst
    simp only [List.length_cons] at hlen
    have hmod : (s.lastBidId aid + 1) % 2 ^ 64 = s.lastBidId aid + 1 :=
      Nat.mod_eq_of_lt (by omega)
    have hcnt := PlaceBid_counter aid s msg
    rw [hmod] at hcnt
    have hbids := PlaceBid_bids s msg
    -- the store after the first call
    have hst1 : ∀ b ∈ (PlaceBid s msg).1.bids, b.auctionId = aid →
        b.id ≤ (PlaceBid s msg).1.lastBidId aid := by
      intro b hb hba
      rcases hbids with hbids | ⟨b0, hr, hbids⟩
      · rw [hbids] at hb
        have := hst b hb hba
        rcases hcnt with ⟨hc, _⟩ | ⟨hc, _⟩ <;> omega
      · rw [hbids] at hb
        rcases mem_kvSet _ _ _ _ hb with hb | hb
        · subst hb
          rcases hcnt with ⟨_, hc⟩ | ⟨hc, hc2⟩
          · exact absurd hba (hc _ hr)
          · have := (hc2 _ hr).2
            omega
        · have := hst b hb hba
          rcases hcnt with ⟨hc, _⟩ | ⟨hc, _⟩ <;> omega
    have hlen1 : (PlaceBid s msg).1.lastBidId aid + msgs.length < 2 ^ 64 := by
      rcases hcnt with ⟨hc, _⟩ | ⟨hc, _⟩ <;> omega
    obtain ⟨i1, i2, i3, i4, i5⟩ := ih (PlaceBid s msg).1 hlen1 hst1
    have hle : s.lastBidId aid ≤ (PlaceBid s msg).1.lastBidId aid := by
      rcases hcnt with ⟨hc, _⟩ | ⟨hc, _⟩ <;> omega
    have hle1 : (PlaceBid s msg).1.lastBidId aid ≤ s.lastBidId aid + 1 := by
      rcases hcnt with ⟨hc, _⟩ | ⟨hc, _⟩ <;> omega
    simp only [placeAll, List.length_cons]
    refine ⟨by omega, by omega, ?_, ?_, i5⟩
    · intro id hid
      cases hr : (PlaceBid s msg).2 with
      | error e =>
        rw [hr] at hid
        simp only [returnedIds] at hid
        have := i3 id hid
        omega
      | ok b =>
        rw [hr] at hid
        simp only [returnedIds] at hid
        split at hid
        · rename_i hba
          simp only [List.mem_cons] at hid
          rcases hid with hid | hid
          · rcases hcnt with ⟨_, hc⟩ | ⟨hc, hc2⟩
            · exact absurd hba (hc _ hr)
            · have := (hc2 _ hr).2
              have := i1
              omega
          · have := i3 id hid
            omega
        · have := i3 id hid
          omega
    · cases hr : (PlaceBid s msg).2 with
      | error e =>
        simp only [returnedIds]
        exact i4
      | ok b =>
        simp only [returnedIds]
        split
        · rename_i hba
          refine List.Pairwise.cons ?_ i4
          intro id hid
          have := i3 id hid
          rcases hcnt with ⟨_, hc⟩ | ⟨hc, hc2⟩
          · exact absurd hba (hc _ hr)
          · have := (hc2 _ hr).2
            omega
        · exact i4

/-! ## The ceiling of a bidder along a sequence of calls -/

theorem sellingAmount_eq (b : Bid) (hp : 0 < b.price.i) :
    sellingAmount b = b.coin.amount * precisionReuse / b.price.i :=
  floor_div_toRat b.coin.amount b.price.i hp

theorem sellingAmount_nonneg (b : Bid) (ha : 0 ≤ b.coin.amount) (hp : 0 < b.price.i) :
    0 ≤ sellingAmount b := by
  rw [sellingAmount_eq b hp]
  exact Int.ediv_nonneg (mul_nonneg ha precisionReuse_pos.le) hp.le

/-- When the division of a stored bid returns, it returns
`floor(coin.amount / price)`. -/
theorem quoTruncateInt_some_sellingAmount (b : Bid) (ex : Int) (ha : 0 ≤ b.coin.amount)
    (hp : 0 < b.price.i) (h : quoTruncateInt b.coin.amount b.price = some ex) :
    ex = sellingAmount b := by
  rw [sellingAmount_eq b hp]
  exact quoTruncateInt_some b.coin.amount b.price.i ex ha hp h

theorem sellingAmount_of_pos (b : Bid) (ha : 0 ≤ b.coin.amount) (hp : 0 < b.price.i)
    (hfit : sellingAmount b < 2 ^ 255) :
    quoTruncateInt b.coin.amount b.price = some (sellingAmount b) ∧ 0 ≤ sellingAmount b := by
  refine ⟨?_, sellingAmount_nonneg b ha hp⟩
  rw [sellingAmount_eq b hp] at hfit ⊢
  exact quoTruncateInt_of_pos b.coin.amount b.price.i ha hp hfit

theorem sellingAmount_of_nonpos (b : Bid) (ha : 0 ≤ b.coin.amount) (hp : b.price.i ≤ 0) :
    sellingAmount b ≤ 0 := by
  unfold sellingAmount
  apply Int.floor_nonpos
  apply div_nonpos_of_nonneg_of_nonpos
  · exact_mod_cast ha
  · unfold Dec.toRat
    apply div_nonpos_of_nonpos_of_nonneg
    · exact_mod_cast hp
    · positivity

theorem list_sum_nonpos (l : List Int) (h : ∀ x ∈ l, x ≤ 0) : l.sum ≤ 0 := by
  induction l with
  | nil => simp
  | cons x xs ih =>
    have hx := h x (List.mem_cons_self _ _)
    have hxs := ih (fun y hy => h y (List.mem_cons_of_mem _ hy))
    rw [List.sum_cons]
    omega

theorem bidderTotal_nil (aid : Nat) (w : String) : bidderTotal [] aid w = 0 := rfl

theorem bidderTotal_cons (x : Bid) (xs : List Bid) (aid : Nat) (w : String) :
    bidderTotal (x :: xs) aid w
      = (if x.auctionId = aid ∧ x.bidder = w then sellingAmount x else 0)
        + bidderTotal xs aid w := by
  unfold bidderTotal
  by_cases h1 : x.auctionId = aid
  · by_cases h2 : x.bidder = w
    · simp [List.filter_cons, h1, h2]
    · simp [List.filter_cons, h1, h2]
  · simp [List.filter_cons, h1]

/-- Writing a bid raises the total of a bidder by at most the exchanged
amount of the bid, when the stored bids of the auction have non-negative
exchanged amounts. -/
theorem bidderTotal_kvSet_le (aid : Nat) (w : String) (b : Bid) (bids : List Bid)
    (hnn : ∀ x ∈ bids, x.auctionId = aid → 0 ≤ sellingAmount x) :
    bidderTotal (kvSet bidKey bids b) aid w
      ≤ bidderTotal bids aid w
        + (if b.auctionId = aid ∧ b.bidder = w then sellingAmount b else 0) := by
  induction bids with
  | nil =>
    simp only [kvSet, bidderTotal_cons, bidderTotal_nil]
    omega
  | cons x xs ih =>
    have ih' := ih (fun y hy => hnn y (List.mem_cons_of_mem _ hy))
    have hx := hnn x (List.mem_cons_self _ _)
    by_cases hk : bidKey x = bidKey b
    · rw [kvSet, if_pos hk, bidderTotal_cons, bidderTotal_cons]
      have : 0 ≤ (if x.auctionId = aid ∧ x.bidder = w then sellingAmount x else 0) := by
        split
        · rename_i h; exact hx h.1
        · exact le_refl _
      omega
    · rw [kvSet, if_neg hk, bidderTotal_cons, bidderTotal_cons]
      omega

/-- Over bids at a positive price and of non-negative amounts the loop of
`HandleFixedPriceBid`, when it returns, has added the exchanged amounts of the
bidder. -/
theorem totalBidAmtLoop_eq (w : String) (P : Dec) (hP : 0 < P.i) (bs : List Bid) :
    ∀ acc total : Int, (∀ b ∈ bs, b.price = P ∧ 0 ≤ b.coin.amount) →
      totalBidAmtLoop w bs acc = some total →
      total = acc + ((bs.filter (fun b => decide (b.bidder = w))).map sellingAmount).sum := by
  induction bs with
  | nil =>
    intro acc total _ h
    simp only [totalBidAmtLoop, Option.some.injEq] at h
    simp [h]
  | cons x xs ih =>
    intro acc total h hl
    have hx := h x (List.mem_cons_self _ _)
    have hxs := fun b hb => h b (List.mem_cons_of_mem _ hb)
    by_cases hb : x.bidder = w
    · simp only [totalBidAmtLoop, if_pos hb] at hl
      split at hl
      · simp at hl
      · rename_i ex hq
        have hex := quoTruncateInt_some_sellingAmount x ex hx.2 (by rw [hx.1]; exact hP) hq
        rw [ih _ _ hxs hl, hex]
        simp [List.filter_cons, hb, add_assoc]
    · simp only [totalBidAmtLoop, if_neg hb] at hl
      rw [ih _ _ hxs hl]
      simp [List.filter_cons, hb]

/-- What `ModifyBid` does to the state: nothing, or it overwrites price,
coin and height of the bid it found in a batch auction. -/
theorem ModifyBid_state (s : State) (msg : MsgModifyBid) :
    ((ModifyBid s msg).1 = s ∧ ∃ e, (ModifyBid s msg).2 = Except.error e) ∨
    ∃ (au : Auction) (bid : Bid),
      GetAuction s msg.auctionId = some au ∧ au.type = AuctionType.batch ∧
      GetBid s msg.auctionId msg.bidId = some bid ∧
      bid.coin.denom = msg.coin.denom ∧
      (ModifyBid s msg).2 = Except.ok () ∧
      (ModifyBid s msg).1
        = SetBid s { bid with price := msg.price, coin := msg.coin,
                              height := uint64 s.blockHeight } := by
  unfold ModifyBid
  split
  · exact Or.inl ⟨rfl, _, rfl⟩
  rename_i au hau
  split
  · exact Or.inl ⟨rfl, _, rfl⟩
  rename_i htype
  split
  · exact Or.inl ⟨rfl, _, rfl⟩
  rename_i bid hbid
  split
  · exact Or.inl ⟨rfl, _, rfl⟩
  rename_i hden
  split
  · exact Or.inl ⟨rfl, _, rfl⟩
  split
  · exact Or.inl ⟨rfl, _, rfl⟩
  split
  · exact Or.inl ⟨rfl, _, rfl⟩
  · refine Or.inr ⟨au, bid, hau, ?_, hbid, ?_, rfl, rfl⟩
    · by_contra hc; exact htype hc
    · by_contra hc; exact hden hc

theorem FixedInv_bids_other (aid : Nat) (P : Dec) (L : List AllowedBidder) (s s1 : State)
    (b : Bid) (hinv : FixedInv aid P L s) (hauc : GetAuction s1 aid = GetAuction s aid)
    (hbids : s1.bids = kvSet bidKey s.bids b) (hb : b.auctionId ≠ aid) :
    FixedInv aid P L s1 := by
  obtain ⟨i1, i2, i3⟩ := hinv
  refine ⟨by rw [hauc]; exact i1, ?_, ?_⟩
  · intro x hx hxa
    rw [hbids] at hx
    rcases mem_kvSet _ _ _ _ hx with hx | hx
    · subst hx; exact absurd hxa hb
    · exact i2 x hx hxa
  · intro hP w m hw hm
    rw [hbids]
    have h := bidderTotal_kvSet_le aid w b s.bids (fun x hx hxa => by
      obtain ⟨h1, h2, _⟩ := i2 x hx hxa
      exact sellingAmount_nonneg x h2 (by rw [h1]; exact hP))
    have hz : (if b.auctionId = aid ∧ b.bidder = w then sellingAmount b else 0) = 0 :=
      if_neg (fun h => hb h.1)
    have := i3 hP w m hw hm
    omega

theorem FixedInv_PlaceBid (aid : Nat) (P : Dec) (L : List AllowedBidder) (s : State)
    (msg : MsgPlaceBid) (hinv : FixedInv aid P L s) : FixedInv aid P L (PlaceBid s msg).1 := by
  rcases hr : (PlaceBid s msg) with ⟨s1, r⟩
  simp only []
  cases r with
  | error e =>
    obtain ⟨hb, ha, _, _⟩ := PlaceBid_error _ _ _ _ hr
    obtain ⟨i1, i2, i3⟩ := hinv
    refine ⟨?_, by rw [hb]; exact i2, by rw [hb]; exact i3⟩
    unfold GetAuction at i1 ⊢
    rw [ha]; exact i1
  | ok b =>
    obtain ⟨au, m, hget, hid, _, hamt, hm, hb, hbids, _, _, hcase⟩ := PlaceBid_ok _ _ _ _ hr
    have hbau : b.auctionId = au.id := by rw [hb]
    by_cases ha : au.id = aid
    · -- a bid on the auction itself
      obtain ⟨⟨au0, hget0, htype0, hprice0, hlist0⟩, i2, i3⟩ := hinv
      rw [← hid, ha, hget0] at hget
      simp only [Option.some.injEq] at hget
      subst hget
      rcases hcase with ⟨_, ex, total, _, hprice, hex, hex0, _, _, htotal, hmax, hauc⟩ | ⟨hne, _⟩
      · have hbprice : b.price = P := by rw [hb]; simp only []; rw [hprice, hprice0]
        have hbamt : 0 ≤ b.coin.amount := by rw [hb]; exact hamt
        have hbbidder : b.bidder = msg.bidder := by rw [hb]
        refine ⟨⟨{ au0 with remainingSellingCoin :=
            ⟨au0.remainingSellingCoin.denom, au0.remainingSellingCoin.amount - ex⟩ },
          ?_, htype0, hprice0, hlist0⟩, ?_, ?_⟩
        · unfold GetAuction
          rw [hauc, kvGet_kvSet, if_pos ha]
        · intro x hx hxa
          rw [hbids] at hx
          rcases mem_kvSet _ _ _ _ hx with hx | hx
          · rw [hx]
            refine ⟨hbprice, hbamt, ?_⟩
            rw [hbbidder, ← hlist0, hm]
            simp
          · exact i2 x hx hxa
        · intro hP w mw hw hmw
          rw [hbids]
          have hnn : ∀ x ∈ s.bids, x.auctionId = aid → 0 ≤ sellingAmount x := by
            intro x hx hxa
            obtain ⟨h1, h2, _⟩ := i2 x hx hxa
            exact sellingAmount_nonneg x h2 (by rw [h1]; exact hP)
          have h := bidderTotal_kvSet_le aid w b s.bids hnn
          by_cases hbw : b.bidder = w
          · rw [if_pos ⟨hbau.trans ha, hbw⟩] at h
            have hq : quoTruncateInt b.coin.amount b.price = some ex := by
              rw [hb]; exact hex
            have hsell := quoTruncateInt_some_sellingAmount b ex hbamt
              (by rw [hbprice]; exact hP) hq
            have hloop := totalBidAmtLoop_eq msg.bidder P hP (GetBidsByAuctionId s au0.id) 0
              total (by
                intro x hx
                unfold GetBidsByAuctionId at hx
                rw [List.mem_filter] at hx
                have hxa : x.auctionId = aid := by
                  have := of_decide_eq_true hx.2
                  rw [this, ha]
                obtain ⟨h1, h2, _⟩ := i2 x hx.1 hxa
                exact ⟨h1, h2⟩) htotal
            rw [zero_add] at hloop
            have htot : total = bidderTotal s.bids aid w := by
              rw [hloop]
              unfold bidderTotal GetBidsByAuctionId
              rw [ha, ← hbbidder, hbw]
            have hmw' : mw = m := by
              rw [← hlist0, ← hbw, hbbidder, hm] at hw
              simp only [Option.some.injEq] at hw
              exact hw.symm
            omega
          · rw [if_neg (fun hc => hbw hc.2)] at h
            have := i3 hP w mw hw hmw
            omega
      · exact absurd htype0 hne
    · -- a bid on another auction
      refine FixedInv_bids_other aid P L s s1 b hinv ?_ hbids (by rw [hbau]; exact ha)
      rcases hcase with ⟨_, ex, total, _, _, _, _, _, _, _, _, hauc⟩ | ⟨_, hauc⟩
      · unfold GetAuction
        rw [hauc, kvGet_kvSet, if_neg ha]
      · unfold GetAuction
        rw [hauc]

theorem FixedInv_ModifyBid (aid : Nat) (P : Dec) (L : List AllowedBidder) (s : State)
    (msg : MsgModifyBid) (hinv : FixedInv aid P L s) : FixedInv aid P L (ModifyBid s msg).1 := by
  rcases ModifyBid_state s msg with ⟨h, _⟩ | ⟨au, bid, hget, htype, hbid, _, _, hs⟩
  · rw [h]; exact hinv
  · have hkey := (kvGet_key _ _ _ _ hbid).1
    have hba : bid.auctionId = msg.auctionId := congrArg Prod.fst hkey
    have hne : msg.auctionId ≠ aid := by
      intro hc
      obtain ⟨⟨au0, hget0, htype0, _, _⟩, _, _⟩ := hinv
      rw [hc, hget0] at hget
      simp only [Option.some.injEq] at hget
      rw [hget, htype] at htype0
      exact absurd htype0 (by decide)
    rw [hs]
    exact FixedInv_bids_other aid P L s _ _ hinv rfl rfl (by
      show bid.auctionId ≠ aid
      rw [hba]; exact hne)

theorem FixedInv_run (aid : Nat) (P : Dec) (L : List AllowedBidder) (ops : List Op) :
    ∀ s : State, FixedInv aid P L s → FixedInv aid P L (run s ops) := by
  induction ops with
  | nil => intro s h; exact h
  | cons op ops ih =>
    intro s h
    unfold run
    rw [List.foldl_cons]
    apply ih
    cases op with
    | placeBid msg => exact FixedInv_PlaceBid aid P L s msg h
    | modifyBid msg => exact FixedInv_ModifyBid aid P L s msg h

/-! ## The checks of `PlaceBid` and of the handlers -/

theorem allowedBiddersMap_foldl_none (L : List AllowedBidder) (k : String) :
    ∀ m0 : String → Option Int,
      (L.foldl (fun m ab => fun k1 => if k1 = ab.bidder then some ab.maxBidAmount else m k1)
          m0) k = none
        ↔ m0 k = none ∧ ∀ ab ∈ L, ab.bidder ≠ k := by
  induction L with
  | nil => intro m0; simp
  | cons x xs ih =>
    intro m0
    rw [List.foldl_cons, ih]
    by_cases hx : k = x.bidder
    · simp [hx]
    · have hx' : ¬ x.bidder = k := fun h => hx h.symm
      simp [hx, hx']

/-- A bidder has no entry in the map of `PlaceBid` exactly when no entry of
the allowed-bidder list carries the bidder's address. -/
theorem allowedBiddersMap_none_iff (L : List AllowedBidder) (k : String) :
    allowedBiddersMap L k = none ↔ ∀ ab ∈ L, ab.bidder ≠ k := by
  unfold allowedBiddersMap
  rw [allowedBiddersMap_foldl_none]
  simp

theorem HandleFixedPriceBid_wrong_denom (s : State) (au : Auction) (b : Bid) (m : Int)
    (h : b.coin.denom ≠ au.payingCoinDenom) :
    HandleFixedPriceBid s au b m = (s, some Err.incorrectCoinDenom) := by
  unfold HandleFixedPriceBid
  rw [if_pos h]

theorem HandleFixedPriceBid_wrong_price (s : State) (au : Auction) (b : Bid) (m : Int)
    (hd : b.coin.denom = au.payingCoinDenom) (hp : b.price ≠ au.startPrice) :
    HandleFixedPriceBid s au b m = (s, some Err.invalidStartPrice) := by
  unfold HandleFixedPriceBid
  have hne : ¬ (b.price.Equal au.startPrice = true) := by
    intro hc
    apply hp
    have hi : b.price.i = au.startPrice.i := of_decide_eq_true hc
    cases hb : b.price; cases ha : au.startPrice
    rw [hb, ha] at hi
    simp only at hi
    rw [hi]
  rw [if_neg (not_not.mpr hd), if_pos hne]

theorem HandleFixedPriceBid_error_kind (s s1 : State) (au : Auction) (b : Bid) (m : Int) (e : Err)
    (h : HandleFixedPriceBid s au b m = (s1, some e)) :
    e = Err.incorrectCoinDenom ∨ e = Err.invalidStartPrice ∨ e = Err.crashed ∨
      e = Err.insufficientRemainingAmount ∨ e = Err.overMaxBidAmountLimit := by
  unfold HandleFixedPriceBid at h
  repeat' split at h
  all_goals try simp only [] at h
  all_goals try split at h
  all_goals simp only [Prod.mk.injEq, Option.some.injEq] at h
  all_goals first
    | (rw [← h.2]; simp)
    | simp at h

theorem HandleBatchBid_error_kind (s s1 : State) (au : Auction) (b : Bid) (e : Err)
    (h : HandleBatchBid s au b = (s1, some e)) : e = Err.incorrectCoinDenom := by
  unfold HandleBatchBid at h
  repeat' split at h
  all_goals simp only [Prod.mk.injEq, Option.some.injEq] at h
  all_goals first
    | exact h.2.symm
    | simp at h

/-- `PlaceBid` past the allowed-bidder check on a fixed-price auction: the
last bid id is advanced and the bid handed to `HandleFixedPriceBid`. -/
theorem PlaceBid_fixedPrice (s s1 : State) (msg : MsgPlaceBid) (au : Auction) (m : Int)
    (hget : GetAuction s msg.auctionId = some au)
    (hstatus : au.status = AuctionStatus.started)
    (hres : ReservePayingCoin s au.id (Address.account msg.bidder) msg.coin = (s1, none))
    (hm : allowedBiddersMap au.allowedBidders msg.bidder = some m)
    (htype : au.type = AuctionType.fixedPrice) :
    PlaceBid s msg =
      match HandleFixedPriceBid (SetBidId s1 au.id ((s1.lastBidId au.id + 1) % 2 ^ 64)) au
          { auctionId := au.id, id := (s1.lastBidId au.id + 1) % 2 ^ 64, bidder := msg.bidder,
            price := msg.price, coin := msg.coin, height := uint64 s1.blockHeight,
            isWinner := false, isMatched := false, type := BidType.unspecified } m with
      | (s3, some err) => (s3, Except.error err)
      | (s3, none) =>
        storeBid s3 msg au
          { auctionId := au.id, id := (s1.lastBidId au.id + 1) % 2 ^ 64, bidder := msg.bidder,
            price := msg.price, coin := msg.coin, height := uint64 s1.blockHeight,
            isWinner := true, isMatched := false, type := BidType.unspecified } := by
  unfold PlaceBid
  rw [hget]
  simp only [hstatus, ne_eq, not_true_eq_false, if_false]
  rw [hres]
  simp only [hm, GetNextBidIdWithUpdate, GetLastBidId, htype]
  rfl

/-- `PlaceBid` past the allowed-bidder check on a batch auction. -/
theorem PlaceBid_batch (s s1 : State) (msg : MsgPlaceBid) (au : Auction) (m : Int)
    (hget : GetAuction s msg.auctionId = some au)
    (hstatus : au.status = AuctionStatus.started)
    (hres : ReservePayingCoin s au.id (Address.account msg.bidder) msg.coin = (s1, none))
    (hm : allowedBiddersMap au.allowedBidders msg.bidder = some m)
    (htype : au.type = AuctionType.batch) :
    PlaceBid s msg =
      match HandleBatchBid (SetBidId s1 au.id ((s1.lastBidId au.id + 1) % 2 ^ 64)) au
          { auctionId := au.id, id := (s1.lastBidId au.id + 1) % 2 ^ 64, bidder := msg.bidder,
            price := msg.price, coin := msg.coin, height := uint64 s1.blockHeight,
            isWinner := false, isMatched := false, type := BidType.unspecified } with
      | (s3, some err) => (s3, Except.error err)
      | (s3, none) =>
        storeBid s3 msg au
          { auctionId := au.id, id := (s1.lastBidId au.id + 1) % 2 ^ 64, bidder := msg.bidder,
            price := msg.price, coin := msg.coin, height := uint64 s1.blockHeight,
            isWinner := false, isMatched := false, type := BidType.unspecified } := by
  unfold PlaceBid
  rw [hget]
  simp only [hstatus, ne_eq, not_true_eq_false, if_false]
  rw [hres]
  simp only [hm, GetNextBidIdWithUpdate, GetLastBidId, htype]
  rfl

/-- `PlaceBid` when the bidder is not in the map. -/
theorem PlaceBid_not_allowed (s s1 : State) (msg : MsgPlaceBid) (au : Auction)
    (hget : GetAuction s msg.auctionId = some au)
    (hstatus : au.status = AuctionStatus.started)
    (hres : ReservePayingCoin s au.id (Address.account msg.bidder) msg.coin = (s1, none))
    (hm : allowedBiddersMap au.allowedBidders msg.bidder = none) :
    PlaceBid s msg = (s1, Except.error Err.notAllowedBidder) := by
  unfold PlaceBid
  rw [hget]
  simp only [hstatus, ne_eq, not_true_eq_false, if_false]
  rw [hres]
  simp only [hm]

theorem ReservePayingCoin_error_kind (s s1 : State) (k : Nat) (addr : Address) (c : Coin)
    (e : Err) (h : ReservePayingCoin s k addr c = (s1, some e)) :
    e = Err.crashed ∨ e = Err.reserveFailed := by
  unfold ReservePayingCoin at h
  split at h
  · simp only [Prod.mk.injEq, Option.some.injEq] at h
    exact Or.inl h.2.symm
  · split at h
    · simp only [Prod.mk.injEq, Option.some.injEq] at h
      exact Or.inr h.2.symm
    · simp at h

/-- `PlaceBid` past the allowed-bidder check on an auction of neither type:
no handler runs. -/
theorem PlaceBid_unspecified (s s1 : State) (msg : MsgPlaceBid) (au : Auction) (m : Int)
    (hget : GetAuction s msg.auctionId = some au)
    (hstatus : au.status = AuctionStatus.started)
    (hres : ReservePayingCoin s au.id (Address.account msg.bidder) msg.coin = (s1, none))
    (hm : allowedBiddersMap au.allowedBidders msg.bidder = some m)
    (htype : au.type = AuctionType.unspecified) :
    PlaceBid s msg =
      storeBid (SetBidId s1 au.id ((s1.lastBidId au.id + 1) % 2 ^ 64)) msg au
        { auctionId := au.id, id := (s1.lastBidId au.id + 1) % 2 ^ 64, bidder := msg.bidder,
          price := msg.price, coin := msg.coin, height := uint64 s1.blockHeight,
          isWinner := false, isMatched := false, type := BidType.unspecified } := by
  unfold PlaceBid
  rw [hget]
  simp only [hstatus, ne_eq, not_true_eq_false, if_false]
  rw [hres]
  simp only [hm, GetNextBidIdWithUpdate, GetLastBidId, htype]
  rfl

/-- Past the allowed-bidder check `PlaceBid` does not fail with the error of
a bidder who is not allowed, and a failure leaves the state with the last bid
id advanced. -/
theorem PlaceBid_past_checks (s s1 : State) (msg : MsgPlaceBid) (au : Auction) (m : Int)
    (hget : GetAuction s msg.auctionId = some au)
    (hstatus : au.status = AuctionStatus.started)
    (hres : ReservePayingCoin s au.id (Address.account msg.bidder) msg.coin = (s1, none))
    (hm : allowedBiddersMap au.allowedBidders msg.bidder = some m) :
    (PlaceBid s msg).2 ≠ Except.error Err.notAllowedBidder ∧
    ((∃ e, (PlaceBid s msg).2 = Except.error e) →
      (PlaceBid s msg).1 = SetBidId s1 au.id ((s1.lastBidId au.id + 1) % 2 ^ 64)) := by
  cases htype : au.type with
  | fixedPrice =>
    rw [PlaceBid_fixedPrice s s1 msg au m hget hstatus hres hm htype]
    split
    · rename_i s3 err hh
      have hk := HandleFixedPriceBid_error_kind _ _ _ _ _ _ hh
      have hs := HandleFixedPriceBid_error _ _ _ _ _ _ hh
      refine ⟨?_, fun _ => hs⟩
      simp only [ne_eq, Except.error.injEq]
      rcases hk with h | h | h | h | h <;> rw [h] <;> decide
    · refine ⟨by simp [storeBid], ?_⟩
      rintro ⟨e, he⟩
      simp [storeBid] at he
  | batch =>
    rw [PlaceBid_batch s s1 msg au m hget hstatus hres hm htype]
    split
    · rename_i s3 err hh
      have hk := HandleBatchBid_error_kind _ _ _ _ _ hh
      have hs := congrArg Prod.fst hh
      rw [HandleBatchBid_state] at hs
      refine ⟨?_, fun _ => hs.symm⟩
      simp only [ne_eq, Except.error.injEq]
      rw [hk]; decide
    · refine ⟨by simp [storeBid], ?_⟩
      rintro ⟨e, he⟩
      simp [storeBid] at he
  | unspecified =>
    rw [PlaceBid_unspecified s s1 msg au m hget hstatus hres hm htype]
    refine ⟨by simp [storeBid], ?_⟩
    rintro ⟨e, he⟩
    simp [storeBid] at he

/-- Over bids of the bidder at positive prices, of non-negative amounts and
with exchanged amounts that fit in an `sdk.Int`, each at its own price, the
loop of `HandleFixedPriceBid` does not panic and adds the exchanged amounts of
the bidder. -/
theorem totalBidAmtLoop_of_pos (w : String) (bs : List Bid) :
    ∀ acc : Int,
      (∀ b ∈ bs, b.bidder = w →
        0 < b.price.i ∧ 0 ≤ b.coin.amount ∧ sellingAmount b < 2 ^ 255) →
      totalBidAmtLoop w bs acc
        = some (acc + ((bs.filter (fun b => decide (b.bidder = w))).map sellingAmount).sum) := by
  induction bs with
  | nil => intro acc _; simp [totalBidAmtLoop]
  | cons x xs ih =>
    intro acc h
    have hxs := fun b hb => h b (List.mem_cons_of_mem _ hb)
    by_cases hb : x.bidder = w
    · have hx := h x (List.mem_cons_self _ _) hb
      have hq := (sellingAmount_of_pos x hx.2.1 hx.1 hx.2.2).1
      simp only [totalBidAmtLoop, if_pos hb, hq]
      rw [ih _ hxs]
      simp [List.filter_cons, hb, add_assoc]
    · simp only [totalBidAmtLoop, if_neg hb]
      rw [ih _ hxs]
      simp [List.filter_cons, hb]

theorem list_mem_le_sum (l : List Int) (h : ∀ x ∈ l, 0 ≤ x) : ∀ x ∈ l, x ≤ l.sum := by
  induction l with
  | nil => intro x hx; simp at hx
  | cons y ys ih =>
    intro x hx
    have hy := h y (List.mem_cons_self _ _)
    have hys : ∀ z ∈ ys, 0 ≤ z := fun z hz => h z (List.mem_cons_of_mem _ hz)
    have hsum : 0 ≤ ys.sum := List.sum_nonneg hys
    rw [List.sum_cons]
    rw [List.mem_cons] at hx
    rcases hx with hx | hx
    · rw [hx]; omega
    · have := ih hys x hx
      omega

/-- The stored bids of a bidder, at positive prices and of non-negative
amounts, each exchange at most the total of the bidder, which is not
negative. -/
theorem sellingAmount_le_bidderTotal (s : State) (aid : Nat) (w : String)
    (hstored : ∀ b ∈ GetBidsByAuctionId s aid, b.bidder = w →
      0 < b.price.i ∧ 0 ≤ b.coin.amount) :
    0 ≤ bidderTotal s.bids aid w ∧
    ∀ b ∈ GetBidsByAuctionId s aid, b.bidder = w → sellingAmount b ≤ bidderTotal s.bids aid w := by
  have hnn : ∀ x ∈ ((GetBidsByAuctionId s aid).filter
      (fun b => decide (b.bidder = w))).map sellingAmount, 0 ≤ x := by
    intro x hx
    rw [List.mem_map] at hx
    obtain ⟨b, hb, rfl⟩ := hx
    rw [List.mem_filter] at hb
    have hw : b.bidder = w := of_decide_eq_true hb.2
    obtain ⟨h1, h2⟩ := hstored b hb.1 hw
    exact sellingAmount_nonneg b h2 h1
  constructor
  · exact List.sum_nonneg hnn
  · intro b hb hw
    apply list_mem_le_sum _ hnn
    rw [List.mem_map]
    exact ⟨b, by rw [List.mem_filter]; exact ⟨hb, by simpa using hw⟩, rfl⟩

/-- The three outcomes of `HandleFixedPriceBid` for a bid in the paying denom
at the start price, on well-formed amounts within the range of `sdk.Int`. -/
theorem HandleFixedPriceBid_eval (s : State) (au : Auction) (bid : Bid) (m : Int)
    (hden : bid.coin.denom = au.payingCoinDenom) (hprice : bid.price = au.startPrice)
    (hpos : 0 < bid.price.i) (hamt : 0 ≤ bid.coin.amount)
    (hrem : au.remainingSellingCoin.denom = au.sellingCoin.denom)
    (hstored : ∀ b ∈ GetBidsByAuctionId s au.id, b.bidder = bid.bidder →
      0 < b.price.i ∧ 0 ≤ b.coin.amount)
    (hrange : bidderTotal s.bids au.id bid.bidder + sellingAmount bid < 2 ^ 255) :
    (HandleFixedPriceBid s au bid m).2 =
      if au.remainingSellingCoin.amount < sellingAmount bid then
        some Err.insufficientRemainingAmount
      else if bidderTotal s.bids au.id bid.bidder + sellingAmount bid > m then
        some Err.overMaxBidAmountLimit
      else none := by
  obtain ⟨hprior0, hle⟩ := sellingAmount_le_bidderTotal s au.id bid.bidder hstored
  have hsa0 := sellingAmount_nonneg bid hamt hpos
  obtain ⟨hq, hex0⟩ := sellingAmount_of_pos bid hamt hpos (by omega)
  have hloop := totalBidAmtLoop_of_pos bid.bidder (GetBidsByAuctionId s au.id) 0
    (fun b hb hw => ⟨(hstored b hb hw).1, (hstored b hb hw).2, by
      have := hle b hb hw
      omega⟩)
  have htot : (((GetBidsByAuctionId s au.id).filter
      (fun b => decide (b.bidder = bid.bidder))).map sellingAmount).sum
        = bidderTotal s.bids au.id bid.bidder := rfl
  rw [htot, zero_add] at hloop
  have heq : bid.price.Equal au.startPrice = true := by
    rw [hprice]; simp [Dec.Equal]
  unfold HandleFixedPriceBid
  rw [if_neg (not_not.mpr hden), if_neg (not_not.mpr heq), hq]
  simp only [NewCoin, if_neg (not_lt.mpr hex0), Coin.IsLT, if_neg (not_not.mpr hrem)]
  by_cases hlt : au.remainingSellingCoin.amount < sellingAmount bid
  · simp [hlt]
  · simp only [hlt, decide_False, if_false, hloop]
    by_cases hover : bidderTotal s.bids au.id bid.bidder + sellingAmount bid > m
    · simp [hover]
    · have hsub : ¬ au.remainingSellingCoin.amount - sellingAmount bid < 0 := by omega
      simp [hover, Coin.Sub, hrem, hsub]

/-- What `HandleFixedPriceBid` does with the exchanged selling amount `ex`
of a bid that passed the denom and price checks: the inventory check, the
sum against the ceiling and the decrement. -/
theorem HandleFixedPriceBid_with_amount (s : State) (au : Auction) (bid : Bid) (m ex : Int)
    (hden : bid.coin.denom = au.payingCoinDenom) (hprice : bid.price = au.startPrice)
    (hex : quoTruncateInt bid.coin.amount bid.price = some ex) (hex0 : 0 ≤ ex)
    (hrem : au.remainingSellingCoin.denom = au.sellingCoin.denom) :
    (au.remainingSellingCoin.amount < ex →
      HandleFixedPriceBid s au bid m = (s, some Err.insufficientRemainingAmount)) ∧
    (¬ au.remainingSellingCoin.amount < ex →
      ∀ total, totalBidAmtLoop bid.bidder (GetBidsByAuctionId s au.id) 0 = some total →
        (total + ex > m → HandleFixedPriceBid s au bid m = (s, some Err.overMaxBidAmountLimit)) ∧
        (¬ total + ex > m →
          (HandleFixedPriceBid s au bid m).2 = none ∧
          (GetAuction (HandleFixedPriceBid s au bid m).1 au.id).map
            (fun a => a.remainingSellingCoin)
            = some ⟨au.sellingCoin.denom, au.remainingSellingCoin.amount - ex⟩)) := by
  have heq : bid.price.Equal au.startPrice = true := by
    rw [hprice]; simp [Dec.Equal]
  unfold HandleFixedPriceBid
  rw [if_neg (not_not.mpr hden), if_neg (not_not.mpr heq), hex]
  simp only [NewCoin, if_neg (not_lt.mpr hex0), Coin.IsLT, if_neg (not_not.mpr hrem)]
  constructor
  · intro hlt
    simp [hlt]
  · intro hlt total htotal
    simp only [hlt, decide_False, htotal]
    constructor
    · intro hover
      simp [hover]
    · intro hover
      have hsub : ¬ au.remainingSellingCoin.amount - ex < 0 := by omega
      simp only [hover, if_false, Coin.Sub, hrem, ne_eq, not_true_eq_false, hsub]
      refine ⟨trivial, ?_⟩
      unfold GetAuction SetAuction Auction.SetRemainingSellingCoin
      simp only []
      rw [kvGet_kvSet, if_pos rfl]
      rfl

/-- A `HandleFixedPriceBid` that fails with the error of an insufficient
remaining amount has divided the coin amount by the price and found the
remaining amount below the quotient. -/
theorem HandleFixedPriceBid_insufficient_inv (s s1 : State) (au : Auction) (b : Bid) (m : Int)
    (h : HandleFixedPriceBid s au b m = (s1, some Err.insufficientRemainingAmount)) :
    ∃ ex : Int, quoTruncateInt b.coin.amount b.price = some ex ∧
      au.remainingSellingCoin.amount < ex := by
  unfold HandleFixedPriceBid at h
  split at h
  · simp at h
  split at h
  · simp at h
  split at h
  · simp at h
  rename_i ex hex
  split at h
  · simp at h
  rename_i exCoin hcoin
  unfold NewCoin at hcoin
  split at hcoin
  · simp at hcoin
  simp only [Option.some.injEq] at hcoin
  subst hcoin
  split at h
  · simp at h
  · rename_i hlt
    unfold Coin.IsLT at hlt
    split at hlt
    · simp at hlt
    · simp only [Option.some.injEq, decide_eq_true_eq] at hlt
      exact ⟨ex, hex, hlt⟩
  · split at h
    · simp at h
    · simp only [] at h
      split at h
      · simp at h
      · split at h
        · simp at h
        · simp at h

/-- A `HandleFixedPriceBid` that fails with the error of the exceeded ceiling
has found the quotient within the remaining amount and the sum of the loop
plus the quotient above the ceiling. -/
theorem HandleFixedPriceBid_over_inv (s s1 : State) (au : Auction) (b : Bid) (m : Int)
    (h : HandleFixedPriceBid s au b m = (s1, some Err.overMaxBidAmountLimit)) :
    ∃ ex total : Int, quoTruncateInt b.coin.amount b.price = some ex ∧
      ¬ au.remainingSellingCoin.amount < ex ∧
      totalBidAmtLoop b.bidder (GetBidsByAuctionId s au.id) 0 = some total ∧
      total + ex > m := by
  unfold HandleFixedPriceBid at h
  split at h
  · simp at h
  split at h
  · simp at h
  split at h
  · simp at h
  rename_i ex hex
  split at h
  · simp at h
  rename_i exCoin hcoin
  unfold NewCoin at hcoin
  split at hcoin
  · simp at hcoin
  simp only [Option.some.injEq] at hcoin
  subst hcoin
  split at h
  · simp at h
  · simp at h
  · rename_i hlt
    unfold Coin.IsLT at hlt
    split at hlt
    · simp at hlt
    simp only [Option.some.injEq, decide_eq_false_iff_not] at hlt
    split at h
    · simp at h
    · rename_i total htotal
      simp only [] at h
      split at h
      · rename_i hover
        exact ⟨ex, total, hex, hlt, htotal, hover⟩
      · split at h
        · simp at h
        · simp at h

/-! ## Claims on the conversions -/

/-- C1 (as stated, refuted): `ConvertToSellingAmount(denom)` does not return
the coin amount unchanged when the coin denom equals `denom`, and does not
divide when it differs.  The second row of `TestConvertToSellingAmount`
(price 0.5, 100000 of denom2, reference denom2) gives 200000, not 100000; the
first row (price 0.5, 100000 of denom1, reference denom2) gives 100000, not
the quotient 200000. -/
theorem C1_as_stated_fails :
    (testBid (5 * 10 ^ 17) "denom2" 100000).coin.denom = "denom2" ∧
    (testBid (5 * 10 ^ 17) "denom2" 100000).ConvertToSellingAmount "denom2" = some 200000 ∧
    (testBid (5 * 10 ^ 17) "denom2" 100000).ConvertToSellingAmount "denom2"
      ≠ some (testBid (5 * 10 ^ 17) "denom2" 100000).coin.amount ∧
    (testBid (5 * 10 ^ 17) "denom1" 100000).coin.denom ≠ "denom2" ∧
    (testBid (5 * 10 ^ 17) "denom1" 100000).ConvertToSellingAmount "denom2" = some 100000 ∧
    (testBid (5 * 10 ^ 17) "denom1" 100000).ConvertToSellingAmount "denom2"
      ≠ some ⌊(((testBid (5 * 10 ^ 17) "denom1" 100000).coin.amount : Int) : ℚ)
          / (testBid (5 * 10 ^ 17) "denom1" 100000).price.toRat⌋ := by
  refine ⟨by decide, by decide, by decide, by decide, by decide, ?_⟩
  have h : ⌊(((testBid (5 * 10 ^ 17) "denom1" 100000).coin.amount : Int) : ℚ)
      / (testBid (5 * 10 ^ 17) "denom1" 100000).price.toRat⌋ = 200000 := by
    show ⌊((100000 : Int) : ℚ) / (Dec.toRat ⟨5 * 10 ^ 17⟩)⌋ = 200000
    rw [floor_div_toRat _ _ (by decide)]
    decide
  rw [h]
  decide

/-- C1 (amended): for a non-negative coin amount and a positive price,
`ConvertToSellingAmount(denom)` returns `floor(coin.amount / price)` when the
coin denom equals `denom` and that quotient is below `2^255`, and the coin
amount unchanged when the coin denom differs from `denom`; the division
panics when the quotient chopped to 18 decimals has more than 315 bits. -/
theorem ConvertToSellingAmount_by_denom (b : Bid) (denom : String)
    (ha : 0 ≤ b.coin.amount) (hp : 0 < b.price.i) :
    (b.coin.denom = denom → ⌊(b.coin.amount : ℚ) / b.price.toRat⌋ < 2 ^ 255 →
      b.ConvertToSellingAmount denom = some ⌊(b.coin.amount : ℚ) / b.price.toRat⌋) ∧
    (b.coin.denom ≠ denom → b.ConvertToSellingAmount denom = some b.coin.amount) ∧
    (b.coin.denom = denom →
      (2 : Int) ^ 315 ≤ b.coin.amount * precisionReuse * precisionReuse / b.price.i →
      b.ConvertToSellingAmount denom = none) := by
  refine ⟨?_, ?_, ?_⟩
  · intro h hfit
    rw [floor_div_toRat _ _ hp] at hfit
    rw [Bid.ConvertToSellingAmount, if_pos h, floor_div_toRat _ _ hp]
    exact quoTruncateInt_of_pos _ _ ha hp hfit
  · intro h
    rw [Bid.ConvertToSellingAmount, if_neg h]
  · intro h hov
    rw [Bid.ConvertToSellingAmount, if_pos h]
    exact quoTruncateInt_overflow _ _ ha hp hov

/-- Witness of C1 (amended): the second row of `TestConvertToSellingAmount`. -/
theorem ConvertToSellingAmount_by_denom_witness :
    0 ≤ (testBid (5 * 10 ^ 17) "denom2" 100000).coin.amount ∧
    0 < (testBid (5 * 10 ^ 17) "denom2" 100000).price.i ∧
    (testBid (5 * 10 ^ 17) "denom2" 100000).ConvertToSellingAmount "denom2"
      = some ⌊((testBid (5 * 10 ^ 17) "denom2" 100000).coin.amount : ℚ)
          / (testBid (5 * 10 ^ 17) "denom2" 100000).price.toRat⌋ :=
  ⟨by decide, by decide,
    (ConvertToSellingAmount_by_denom (testBid (5 * 10 ^ 17) "denom2" 100000) "denom2"
      (by decide) (by decide)).1 (by decide) (by
        show ⌊((100000 : Int) : ℚ) / (Dec.toRat ⟨5 * 10 ^ 17⟩)⌋ < 2 ^ 255
        rw [floor_div_toRat _ _ (by decide)]
        norm_num [precisionReuse])⟩

/-- C2 (as stated, refuted): with `10^70` coins of the paying denom at the
price `10^-18` (amount non-negative, price positive) the quotient chopped to
18 decimals has more than 315 bits: `ConvertToSellingAmount` panics and
returns nothing, where the claim has it return the floor `10^88`. -/
theorem C2_as_stated_fails :
    0 ≤ (testBid 1 "denom2" (10 ^ 70)).coin.amount ∧
    0 < (testBid 1 "denom2" (10 ^ 70)).price.i ∧
    (testBid 1 "denom2" (10 ^ 70)).coin.denom = "denom2" ∧
    ⌊(((testBid 1 "denom2" (10 ^ 70)).coin.amount : Int) : ℚ)
        / (testBid 1 "denom2" (10 ^ 70)).price.toRat⌋ = 10 ^ 88 ∧
    (testBid 1 "denom2" (10 ^ 70)).ConvertToSellingAmount "denom2" = none := by
  refine ⟨by decide, by decide, by decide, ?_, by decide⟩
  show ⌊((10 ^ 70 : Int) : ℚ) / (Dec.toRat ⟨1⟩)⌋ = 10 ^ 88
  rw [floor_div_toRat _ _ (by decide)]
  decide

/-- C2 (amended): for a non-negative amount `a` and a positive price `p`,
`ConvertToSellingAmount` called with the paying-coin denom returns exactly
`floor(a / p)` for a coin in the paying denom whenever that quotient is below
`2^255` (the result `r` satisfies `r * p ≤ a < (r + 1) * p`), panics when the
quotient chopped to 18 decimals, `floor(a * 10^36 / P)` for `p = P / 10^18`,
has more than 315 bits, and returns `a` unchanged for a coin in another
denom.  Price 0.1 and 100000 paying coins give 1000000; price 3 and 4 give 1;
price 0.5 and 100000 coins of the other denom give 100000. -/
theorem ConvertToSellingAmount_exact_floor :
    (∀ (b : Bid) (payingCoinDenom : String), 0 ≤ b.coin.amount → 0 < b.price.i →
      (b.coin.denom = payingCoinDenom →
        ⌊(b.coin.amount : ℚ) / b.price.toRat⌋ < 2 ^ 255 →
        ∃ r : Int, b.ConvertToSellingAmount payingCoinDenom = some r ∧
          r = ⌊(b.coin.amount : ℚ) / b.price.toRat⌋ ∧
          (r : ℚ) * b.price.toRat ≤ (b.coin.amount : ℚ) ∧
          (b.coin.amount : ℚ) < ((r : ℚ) + 1) * b.price.toRat) ∧
      (b.coin.denom = payingCoinDenom →
        (2 : Int) ^ 315 ≤ b.coin.amount * precisionReuse * precisionReuse / b.price.i →
        b.ConvertToSellingAmount payingCoinDenom = none) ∧
      (b.coin.denom ≠ payingCoinDenom →
        b.ConvertToSellingAmount payingCoinDenom = some b.coin.amount)) ∧
    (testBid (10 ^ 17) "denom2" 100000).ConvertToSellingAmount "denom2" = some 1000000 ∧
    (testBid (3 * 10 ^ 18) "denom2" 4).ConvertToSellingAmount "denom2" = some 1 ∧
    (testBid (5 * 10 ^ 17) "denom1" 100000).ConvertToSellingAmount "denom2" = some 100000 := by
  refine ⟨?_, by decide, by decide, by decide⟩
  intro b d ha hp
  refine ⟨?_, ?_, ?_⟩
  · intro h hfit
    refine ⟨⌊(b.coin.amount : ℚ) / b.price.toRat⌋, ?_, rfl, ?_, ?_⟩
    · rw [floor_div_toRat _ _ hp] at hfit
      rw [Bid.ConvertToSellingAmount, if_pos h, floor_div_toRat _ _ hp]
      exact quoTruncateInt_of_pos _ _ ha hp hfit
    · have hq : (0 : ℚ) < b.price.toRat := by
        have : (0 : ℚ) < (b.price.i : ℚ) := by exact_mod_cast hp
        simp only [Dec.toRat]
        positivity
      have := Int.floor_le ((b.coin.amount : ℚ) / b.price.toRat)
      rwa [le_div_iff₀ hq] at this
    · have hq : (0 : ℚ) < b.price.toRat := by
        have : (0 : ℚ) < (b.price.i : ℚ) := by exact_mod_cast hp
        simp only [Dec.toRat]
        positivity
      have := Int.lt_floor_add_one ((b.coin.amount : ℚ) / b.price.toRat)
      rwa [div_lt_iff₀ hq] at this
  · intro h hov
    rw [Bid.ConvertToSellingAmount, if_pos h]
    exact quoTruncateInt_overflow _ _ ha hp hov
  · intro h
    rw [Bid.ConvertToSellingAmount, if_neg h]

/-- Witness of C2 (amended): the general statement at price 3 and 4 paying
coins. -/
theorem ConvertToSellingAmount_exact_floor_witness :
    0 ≤ (testBid (3 * 10 ^ 18) "denom2" 4).coin.amount ∧
    0 < (testBid (3 * 10 ^ 18) "denom2" 4).price.i ∧
    ∃ r : Int, (testBid (3 * 10 ^ 18) "denom2" 4).ConvertToSellingAmount "denom2" = some r ∧
      r = ⌊((testBid (3 * 10 ^ 18) "denom2" 4).coin.amount : ℚ)
            / (testBid (3 * 10 ^ 18) "denom2" 4).price.toRat⌋ ∧
      (r : ℚ) * (testBid (3 * 10 ^ 18) "denom2" 4).price.toRat
        ≤ ((testBid (3 * 10 ^ 18) "denom2" 4).coin.amount : ℚ) ∧
      ((testBid (3 * 10 ^ 18) "denom2" 4).coin.amount : ℚ)
        < ((r : ℚ) + 1) * (testBid (3 * 10 ^ 18) "denom2" 4).price.toRat :=
  ⟨by decide, by decide,
    (ConvertToSellingAmount_exact_floor.1 (testBid (3 * 10 ^ 18) "denom2" 4) "denom2"
      (by decide) (by decide)).1 (by decide) (by
        show ⌊((4 : Int) : ℚ) / (Dec.toRat ⟨3 * 10 ^ 18⟩)⌋ < 2 ^ 255
        rw [floor_div_toRat _ _ (by decide)]
        norm_num [precisionReuse])⟩

/-- C3 (as stated, refuted): with `10^70` coins of the selling denom at the
price `10^10` (amount and price non-negative) the product has more than 315
bits: `ConvertToPayingAmount` panics and returns nothing, where the claim has
it return the ceiling `10^80`. -/
theorem C3_as_stated_fails :
    0 ≤ (testBid (10 ^ 28) "denom1" (10 ^ 70)).coin.amount ∧
    0 ≤ (testBid (10 ^ 28) "denom1" (10 ^ 70)).price.i ∧
    (testBid (10 ^ 28) "denom1" (10 ^ 70)).coin.denom ≠ "denom2" ∧
    (testBid (10 ^ 28) "denom1" (10 ^ 70)).price.toRat = 10 ^ 10 ∧
    (testBid (10 ^ 28) "denom1" (10 ^ 70)).ConvertToPayingAmount "denom2" = none := by
  refine ⟨by decide, by decide, by decide, ?_, by decide⟩
  show ((10 ^ 28 : Int) : ℚ) / 10 ^ 18 = 10 ^ 10
  norm_num

/-- C3 (amended): for a non-negative amount `a` and a non-negative price `p`,
`ConvertToPayingAmount(denom)` returns `a` unchanged when the coin denom
equals `denom`; otherwise it returns the ceiling `r` of the exact product
`a * p`, so that `a * p ≤ r < a * p + 1`, whenever that ceiling is below
`2^255`, and panics when the product `a * P`, for `p = P / 10^18`, has more
than 315 bits.  Price 0.33 and 100000 selling coins give 33000. -/
theorem ConvertToPayingAmount_exact_ceil :
    (∀ (b : Bid) (denom : String), 0 ≤ b.coin.amount → 0 ≤ b.price.i →
      (b.coin.denom = denom → b.ConvertToPayingAmount denom = some b.coin.amount) ∧
      (b.coin.denom ≠ denom → ⌈(b.coin.amount : ℚ) * b.price.toRat⌉ < 2 ^ 255 →
        ∃ r : Int, b.ConvertToPayingAmount denom = some r ∧
          r = ⌈(b.coin.amount : ℚ) * b.price.toRat⌉ ∧
          (b.coin.amount : ℚ) * b.price.toRat ≤ (r : ℚ) ∧
          (r : ℚ) < (b.coin.amount : ℚ) * b.price.toRat + 1) ∧
      (b.coin.denom ≠ denom → (2 : Int) ^ 315 ≤ b.coin.amount * b.price.i →
        b.ConvertToPayingAmount denom = none)) ∧
    (testBid (33 * 10 ^ 16) "denom1" 100000).ConvertToPayingAmount "denom2" = some 33000 := by
  refine ⟨?_, by decide⟩
  intro b d ha hp
  refine ⟨?_, ?_, ?_⟩
  · intro h
    rw [Bid.ConvertToPayingAmount, if_pos h]
  · intro h hfit
    refine ⟨⌈(b.coin.amount : ℚ) * b.price.toRat⌉, ?_, rfl, Int.le_ceil _,
      Int.ceil_lt_add_one _⟩
    rw [Bid.ConvertToPayingAmount, if_neg h]
    have := payingAmount_eval b.coin.amount b.price.i ha hp
    rw [if_neg (not_le.mpr (product_lt_of_fit _ _ hfit))] at this
    exact this
  · intro h hov
    rw [Bid.ConvertToPayingAmount, if_neg h]
    have := payingAmount_eval b.coin.amount b.price.i ha hp
    rw [if_pos hov] at this
    exact this

/-- Witness of C3 (amended): the general statement at price 0.33 and 100000
selling coins. -/
theorem ConvertToPayingAmount_exact_ceil_witness :
    0 ≤ (testBid (33 * 10 ^ 16) "denom1" 100000).coin.amount ∧
    0 ≤ (testBid (33 * 10 ^ 16) "denom1" 100000).price.i ∧
    ∃ r : Int,
      (testBid (33 * 10 ^ 16) "denom1" 100000).ConvertToPayingAmount "denom2" = some r ∧
      r = ⌈((testBid (33 * 10 ^ 16) "denom1" 100000).coin.amount : ℚ)
            * (testBid (33 * 10 ^ 16) "denom1" 100000).price.toRat⌉ :=
  ⟨by decide, by decide,
    (((ConvertToPayingAmount_exact_ceil.1 (testBid (33 * 10 ^ 16) "denom1" 100000) "denom2"
      (by decide) (by decide)).2.1 (by decide) (by
        show ⌈((100000 : Int) : ℚ) * (Dec.toRat ⟨33 * 10 ^ 16⟩)⌉ < 2 ^ 255
        have h : ((100000 : Int) : ℚ) * (Dec.toRat ⟨33 * 10 ^ 16⟩) = ((33000 : Int) : ℚ) := by
          simp only [Dec.toRat]
          norm_num
        rw [h, Int.ceil_intCast]
        norm_num)).imp fun _ hr => ⟨hr.1, hr.2.1⟩)⟩

/-! ## Claims on single calls -/

/-- C4: after every successful `PlaceBid` on a fixed-price auction, and after
every successful `HandleFixedPriceBid`, the stored remaining selling coin is
the remaining selling coin before minus the exchanged selling amount, which
is `floor(coin.amount / price)` for a positive price; it keeps the selling
denom and is not negative. -/
theorem fixedPrice_remaining_decreases :
    (∀ (s s1 : State) (msg : MsgPlaceBid) (b : Bid) (au : Auction),
      PlaceBid s msg = (s1, Except.ok b) → GetAuction s msg.auctionId = some au →
      au.type = AuctionType.fixedPrice →
      ∃ (au1 : Auction) (ex : Int),
        GetAuction s1 msg.auctionId = some au1 ∧
        quoTruncateInt msg.coin.amount msg.price = some ex ∧
        (0 < msg.price.i → ex = ⌊(msg.coin.amount : ℚ) / msg.price.toRat⌋) ∧
        au1.remainingSellingCoin.amount = au.remainingSellingCoin.amount - ex ∧
        au1.remainingSellingCoin.denom = au.sellingCoin.denom ∧
        au1.remainingSellingCoin.denom = au.remainingSellingCoin.denom ∧
        0 ≤ au1.remainingSellingCoin.amount ∧
        au1.remainingSellingCoin.amount ≤ au.remainingSellingCoin.amount) ∧
    (∀ (s s1 : State) (au : Auction) (bid : Bid) (maxBidAmt : Int),
      HandleFixedPriceBid s au bid maxBidAmt = (s1, none) →
      ∃ (au1 : Auction) (ex : Int),
        GetAuction s1 au.id = some au1 ∧
        quoTruncateInt bid.coin.amount bid.price = some ex ∧
        (0 ≤ bid.coin.amount → 0 < bid.price.i →
          ex = ⌊(bid.coin.amount : ℚ) / bid.price.toRat⌋) ∧
        au1.remainingSellingCoin.amount = au.remainingSellingCoin.amount - ex ∧
        au1.remainingSellingCoin.denom = au.sellingCoin.denom ∧
        au1.remainingSellingCoin.denom = au.remainingSellingCoin.denom ∧
        0 ≤ au1.remainingSellingCoin.amount ∧
        au1.remainingSellingCoin.amount ≤ au.remainingSellingCoin.amount) := by
  constructor
  · intro s s1 msg b au h hget htype
    obtain ⟨au', m, hget', hid, _, hamt, _, _, _, _, _, hcase⟩ := PlaceBid_ok _ _ _ _ h
    rw [hget] at hget'
    simp only [Option.some.injEq] at hget'
    subst hget'
    rcases hcase with ⟨_, ex, total, _, _, hex, hex0, hden, hle, _, _, hauc⟩ | ⟨hne, _⟩
    · refine ⟨{ au with remainingSellingCoin :=
        ⟨au.remainingSellingCoin.denom, au.remainingSellingCoin.amount - ex⟩ },
      ex, ?_, hex, ?_, rfl, hden, rfl, ?_, ?_⟩
      · unfold GetAuction
        rw [hauc, kvGet_kvSet, if_pos hid]
      · intro hp
        rw [quoTruncateInt_some msg.coin.amount msg.price.i ex hamt hp hex]
        exact (floor_div_toRat _ _ hp).symm
      · show 0 ≤ au.remainingSellingCoin.amount - ex
        omega
      · show au.remainingSellingCoin.amount - ex ≤ au.remainingSellingCoin.amount
        omega
    · exact absurd htype hne
  · intro s s1 au bid m h
    obtain ⟨ex, total, _, _, hex, hex0, hden, hle, _, _, hs1⟩ := HandleFixedPriceBid_ok _ _ _ _ _ h
    refine ⟨{ au with remainingSellingCoin :=
        ⟨au.remainingSellingCoin.denom, au.remainingSellingCoin.amount - ex⟩ },
      ex, ?_, hex, ?_, rfl, hden, rfl, ?_, ?_⟩
    · unfold GetAuction
      rw [hs1]
      simp only []
      rw [kvGet_kvSet, if_pos rfl]
    · intro hamt hp
      rw [quoTruncateInt_some bid.coin.amount bid.price.i ex hamt hp hex]
      exact (floor_div_toRat _ _ hp).symm
    · show 0 ≤ au.remainingSellingCoin.amount - ex
      omega
    · show au.remainingSellingCoin.amount - ex ≤ au.remainingSellingCoin.amount
      omega

/-- Witness of C4: alice pays 100 coins of denom2 at price 0.5 for 200 of the
one million coins of the fixed-price auction. -/
theorem fixedPrice_remaining_decreases_witness :
    GetAuction genesis 1 = some fixedAuction ∧
    fixedAuction.type = AuctionType.fixedPrice ∧
    ∃ (au1 : Auction) (ex : Int),
      GetAuction
        (PlaceBid genesis (aliceBid 1 (5 * 10 ^ 17) "denom2" 100 BidType.unspecified)).1 1
        = some au1 ∧
      quoTruncateInt 100 ⟨5 * 10 ^ 17⟩ = some ex ∧
      au1.remainingSellingCoin.amount = fixedAuction.remainingSellingCoin.amount - ex ∧
      0 ≤ au1.remainingSellingCoin.amount := by
  refine ⟨rfl, rfl, ?_⟩
  obtain ⟨au1, ex, h1, h2, _, h4, _, _, h7, _⟩ :=
    fixedPrice_remaining_decreases.1 genesis
      (PlaceBid genesis (aliceBid 1 (5 * 10 ^ 17) "denom2" 100 BidType.unspecified)).1
      (aliceBid 1 (5 * 10 ^ 17) "denom2" 100 BidType.unspecified)
      { auctionId := 1, id := 1, bidder := "alice", price := ⟨5 * 10 ^ 17⟩,
        coin := ⟨"denom2", 100⟩, height := 7, isWinner := true, isMatched := false,
        type := BidType.unspecified }
      fixedAuction (by rfl) (by rfl) (by rfl)
  exact ⟨au1, ex, h1, h2, h4, h7⟩

/-- C6: a `PlaceBid` that fails, with any error, leaves the bid store and the
auction store (and so the remaining selling coin of every auction) as they
were; a `HandleFixedPriceBid` that fails leaves the whole state as it was. -/
theorem failed_PlaceBid_keeps_stores :
    (∀ (s s1 : State) (msg : MsgPlaceBid) (e : Err),
      PlaceBid s msg = (s1, Except.error e) →
      s1.bids = s.bids ∧ s1.auctions = s.auctions ∧
      GetAuction s1 msg.auctionId = GetAuction s msg.auctionId) ∧
    (∀ (s s1 : State) (au : Auction) (bid : Bid) (maxBidAmt : Int) (e : Err),
      HandleFixedPriceBid s au bid maxBidAmt = (s1, some e) → s1 = s) := by
  constructor
  · intro s s1 msg e h
    obtain ⟨hb, ha, _, _⟩ := PlaceBid_error _ _ _ _ h
    refine ⟨hb, ha, ?_⟩
    unfold GetAuction
    rw [ha]
  · intro s s1 au bid m e h
    exact HandleFixedPriceBid_error _ _ _ _ _ _ h

/-- Witness of C6: a bid at price 0.6 on the fixed-price auction of price
0.5 fails with the error of an invalid start price. -/
theorem failed_PlaceBid_keeps_stores_witness :
    (PlaceBid genesis (aliceBid 1 (6 * 10 ^ 17) "denom2" 100 BidType.unspecified)).2
      = Except.error Err.invalidStartPrice ∧
    (PlaceBid genesis (aliceBid 1 (6 * 10 ^ 17) "denom2" 100 BidType.unspecified)).1.bids
      = genesis.bids ∧
    (PlaceBid genesis (aliceBid 1 (6 * 10 ^ 17) "denom2" 100 BidType.unspecified)).1.auctions
      = genesis.auctions :=
  ⟨by rfl,
    (failed_PlaceBid_keeps_stores.1 genesis
      (PlaceBid genesis (aliceBid 1 (6 * 10 ^ 17) "denom2" 100 BidType.unspecified)).1
      (aliceBid 1 (6 * 10 ^ 17) "denom2" 100 BidType.unspecified)
      Err.invalidStartPrice (by rfl)).1,
    (failed_PlaceBid_keeps_stores.1 genesis
      (PlaceBid genesis (aliceBid 1 (6 * 10 ^ 17) "denom2" 100 BidType.unspecified)).1
      (aliceBid 1 (6 * 10 ^ 17) "denom2" 100 BidType.unspecified)
      Err.invalidStartPrice (by rfl)).2.1⟩

/-- C7: on an existing auction whose status is not `Started`, `PlaceBid`
fails with the error of an invalid auction status and returns the state it
was given: bid store, auctions, last bid ids, balances and events are
unchanged. -/
theorem PlaceBid_not_started (s : State) (msg : MsgPlaceBid) (au : Auction)
    (hget : GetAuction s msg.auctionId = some au)
    (hstatus : au.status ≠ AuctionStatus.started) :
    PlaceBid s msg = (s, Except.error Err.invalidAuctionStatus) := by
  unfold PlaceBid
  rw [hget]
  simp only [if_pos hstatus]

/-- Witness of C7: a bid on the auction that has not started. -/
theorem PlaceBid_not_started_witness :
    GetAuction genesis 3 = some standByAuction ∧
    standByAuction.status ≠ AuctionStatus.started ∧
    PlaceBid genesis (aliceBid 3 (5 * 10 ^ 17) "denom2" 100 BidType.unspecified)
      = (genesis, Except.error Err.invalidAuctionStatus) :=
  ⟨by rfl, by decide,
    PlaceBid_not_started genesis (aliceBid 3 (5 * 10 ^ 17) "denom2" 100 BidType.unspecified)
      standByAuction (by rfl) (by decide)⟩


/-! ## Claims the code does not meet -/

/-- C9 (evaluated at the failing input): on the batch auction the stored bid
of alice has 100 coins at price 1, exchanged selling amount 100.  Raising the
coin to 200 (exchanged amount 200, not lower than before) is rejected with
the error of an invalid request, and lowering it to 50 (exchanged amount 50,
lower than before) succeeds and overwrites the stored coin: the comparison of
`ModifyBid` is the reverse of its comment and of its error message. -/
theorem ModifyBid_comparison_reversed :
    GetAuction batchState 2 = some batchAuction ∧
    (GetBid batchState 2 1).map (fun b => (b.coin, b.price))
      = some (⟨"denom2", 100⟩, ⟨10 ^ 18⟩) ∧
    quoTruncateInt 100 ⟨10 ^ 18⟩ = some 100 ∧
    quoTruncateInt 200 ⟨10 ^ 18⟩ = some 200 ∧
    quoTruncateInt 50 ⟨10 ^ 18⟩ = some 50 ∧
    (ModifyBid batchState ⟨2, 1, ⟨10 ^ 18⟩, ⟨"denom2", 200⟩⟩).2
      = Except.error Err.invalidRequest ∧
    (ModifyBid batchState ⟨2, 1, ⟨10 ^ 18⟩, ⟨"denom2", 50⟩⟩).2 = Except.ok () ∧
    (GetBid (ModifyBid batchState ⟨2, 1, ⟨10 ^ 18⟩, ⟨"denom2", 50⟩⟩).1 2 1).map
      (fun b => b.coin) = some ⟨"denom2", 50⟩ := by
  refine ⟨by rfl, by rfl, by decide, by decide, by decide, by rfl, by rfl, by rfl⟩

/-- C10 (evaluated at the failing input): on the started batch auction
(paying denom2, selling denom1) a request of type `BatchWorth` with a coin of
denom1, and a request of type `BatchMany` with a coin of denom2, both succeed
and are stored, with the zero bid type: `PlaceBid` builds the bid without a
type, so the denom checks of `HandleBatchBid` never apply.  Given the same
bid with its type set, `HandleBatchBid` rejects it. -/
theorem PlaceBid_batch_denom_unchecked :
    batchAuction.payingCoinDenom = "denom2" ∧ batchAuction.sellingCoin.denom = "denom1" ∧
    (PlaceBid genesis (aliceBid 2 (10 ^ 18) "denom1" 100 BidType.batchWorth)).2
      = Except.ok
          { auctionId := 2, id := 1, bidder := "alice", price := ⟨10 ^ 18⟩,
            coin := ⟨"denom1", 100⟩, height := 7, isWinner := false, isMatched := false,
            type := BidType.unspecified } ∧
    (GetBid (PlaceBid genesis (aliceBid 2 (10 ^ 18) "denom1" 100 BidType.batchWorth)).1 2 1).map
      (fun b => b.coin) = some ⟨"denom1", 100⟩ ∧
    (PlaceBid genesis (aliceBid 2 (10 ^ 18) "denom2" 100 BidType.batchMany)).2
      = Except.ok
          { auctionId := 2, id := 1, bidder := "alice", price := ⟨10 ^ 18⟩,
            coin := ⟨"denom2", 100⟩, height := 7, isWinner := false, isMatched := false,
            type := BidType.unspecified } ∧
    (HandleBatchBid genesis batchAuction
        { auctionId := 2, id := 1, bidder := "alice", price := ⟨10 ^ 18⟩,
          coin := ⟨"denom1", 100⟩, height := 7, isWinner := false, isMatched := false,
          type := BidType.batchWorth }).2 = some Err.incorrectCoinDenom := by
  refine ⟨by rfl, by rfl, by rfl, by rfl, by rfl, by rfl⟩


/-! ## Claims on sequences of calls -/

/-- C5: from a state in which a fixed-price auction has no stored bid, after
any sequence of `PlaceBid` and `ModifyBid` calls, successful or failing, the
sum of `floor(coin.amount / price)` over the stored bids of a bidder in the
auction is at most the bidder's `maxBidAmount` (a non-negative ceiling), and a
bidder who is not in the allowed-bidder list has no stored bid. -/
theorem bidder_total_within_ceiling (s0 : State) (aid : Nat) (a0 : Auction) (ops : List Op)
    (hget : GetAuction s0 aid = some a0) (htype : a0.type = AuctionType.fixedPrice)
    (hempty : GetBidsByAuctionId s0 aid = []) :
    (∀ w m, allowedBiddersMap a0.allowedBidders w = some m → 0 ≤ m →
      bidderTotal (run s0 ops).bids aid w ≤ m) ∧
    (∀ w, allowedBiddersMap a0.allowedBidders w = none →
      ∀ b ∈ GetBidsByAuctionId (run s0 ops) aid, b.bidder ≠ w) := by
  have hnone : ∀ b ∈ s0.bids, b.auctionId ≠ aid := by
    intro b hb hba
    have : b ∈ GetBidsByAuctionId s0 aid := by
      unfold GetBidsByAuctionId
      rw [List.mem_filter]
      exact ⟨hb, by simpa using hba⟩
    rw [hempty] at this
    simp at this
  have hinv0 : FixedInv aid a0.startPrice a0.allowedBidders s0 := by
    refine ⟨⟨a0, hget, htype, rfl, rfl⟩, fun b hb hba => absurd hba (hnone b hb), ?_⟩
    intro _ w m _ hm
    have : bidderTotal s0.bids aid w = 0 := by
      unfold bidderTotal
      unfold GetBidsByAuctionId at hempty
      rw [hempty]
      rfl
    rw [this]; exact hm
  obtain ⟨_, i2, i3⟩ := FixedInv_run aid a0.startPrice a0.allowedBidders ops s0 hinv0
  constructor
  · intro w m hw hm
    by_cases hP : 0 < a0.startPrice.i
    · exact i3 hP w m hw hm
    · refine le_trans ?_ hm
      unfold bidderTotal
      apply list_sum_nonpos
      intro x hx
      rw [List.mem_map] at hx
      obtain ⟨b, hb, rfl⟩ := hx
      rw [List.mem_filter, List.mem_filter] at hb
      have hba : b.auctionId = aid := of_decide_eq_true hb.1.2
      obtain ⟨h1, h2, _⟩ := i2 b hb.1.1 hba
      exact sellingAmount_of_nonpos b h2 (by rw [h1]; omega)
  · intro w hw b hb hbw
    unfold GetBidsByAuctionId at hb
    rw [List.mem_filter] at hb
    have hba : b.auctionId = aid := of_decide_eq_true hb.2
    obtain ⟨_, _, h3⟩ := i2 b hb.1 hba
    rw [hbw] at h3
    exact h3 hw

/-- Witness of C5: the four sample calls on the fixed-price auction, where
alice has the ceiling 1000; two of her bids are stored. -/
theorem bidder_total_within_ceiling_witness :
    GetAuction genesis 1 = some fixedAuction ∧
    fixedAuction.type = AuctionType.fixedPrice ∧
    GetBidsByAuctionId genesis 1 = [] ∧
    allowedBiddersMap fixedAuction.allowedBidders "alice" = some 1000 ∧
    (GetBidsByAuctionId (run genesis sampleOps) 1).length = 2 ∧
    bidderTotal (run genesis sampleOps).bids 1 "alice" ≤ 1000 :=
  ⟨by rfl, by rfl, by rfl, by rfl, by rfl,
    (bidder_total_within_ceiling genesis 1 fixedAuction sampleOps (by rfl) (by rfl)
      (by rfl)).1 "alice" 1000 (by rfl) (by decide)⟩

/-- C8: for an auction whose last bid id is 0 and which has no stored bid, in
any sequence of fewer than `2^64` `PlaceBid` calls the ids of the bids
returned for the auction are strictly increasing in call order and pairwise
distinct, every returned id is at least 1, the id assigned at last bid id 0
is 1 (it is the id of the first call when that call succeeds), and every
stored bid of the auction has an id at most the last bid id. -/
theorem bid_ids_strictly_increasing (s0 : State) (aid : Nat) (msgs : List MsgPlaceBid)
    (h0 : GetLastBidId s0 aid = 0) (hempty : GetBidsByAuctionId s0 aid = [])
    (hlen : msgs.length < 2 ^ 64) :
    (returnedIds aid (placeAll s0 msgs).2).Pairwise (fun a b => a < b) ∧
    (returnedIds aid (placeAll s0 msgs).2).Nodup ∧
    (∀ id ∈ returnedIds aid (placeAll s0 msgs).2,
      1 ≤ id ∧ id ≤ GetLastBidId (placeAll s0 msgs).1 aid) ∧
    (GetNextBidIdWithUpdate s0 aid).2 = 1 ∧
    (∀ msg b, (PlaceBid s0 msg).2 = Except.ok b → b.auctionId = aid → b.id = 1) ∧
    (∀ b ∈ GetBidsByAuctionId (placeAll s0 msgs).1 aid,
      b.id ≤ GetLastBidId (placeAll s0 msgs).1 aid) := by
  unfold GetLastBidId at h0 ⊢
  have hst : ∀ b ∈ s0.bids, b.auctionId = aid → b.id ≤ s0.lastBidId aid := by
    intro b hb hba
    have : b ∈ GetBidsByAuctionId s0 aid := by
      unfold GetBidsByAuctionId
      rw [List.mem_filter]
      exact ⟨hb, by simpa using hba⟩
    rw [hempty] at this
    simp at this
  obtain ⟨_, _, i3, i4, i5⟩ := placeAll_ids aid msgs s0 (by omega) hst
  refine ⟨i4, i4.imp (fun h => Nat.ne_of_lt h), ?_, ?_, ?_, ?_⟩
  · intro id hid
    have := i3 id hid
    omega
  · simp only [GetNextBidIdWithUpdate, GetLastBidId, h0]
    decide
  · intro msg b hr hba
    rcases PlaceBid_counter aid s0 msg with ⟨_, hc⟩ | ⟨_, hc⟩
    · exact absurd hba (hc b hr)
    · rw [(hc b hr).2, h0]
      decide
  · intro b hb
    unfold GetBidsByAuctionId at hb
    rw [List.mem_filter] at hb
    exact i5 b hb.1 (of_decide_eq_true hb.2)

/-- Witness of C8: of the three sample requests the first and the third
succeed, with the ids 1 and 3. -/
theorem bid_ids_strictly_increasing_witness :
    GetLastBidId genesis 1 = 0 ∧ GetBidsByAuctionId genesis 1 = [] ∧
    sampleMsgs.length < 2 ^ 64 ∧
    returnedIds 1 (placeAll genesis sampleMsgs).2 = [1, 3] ∧
    (returnedIds 1 (placeAll genesis sampleMsgs).2).Pairwise (fun a b => a < b) :=
  ⟨by rfl, by rfl, by decide, by rfl,
    (bid_ids_strictly_increasing genesis 1 sampleMsgs (by rfl) (by rfl) (by decide)).1⟩


/-! ## Claims on the checks of `PlaceBid` -/

/-- C11: a `PlaceBid` that reaches the fixed-price handler (auction started
and of fixed-price type, escrow reserved, bidder allowed) with the coin in the
paying denom and a price different from the start price fails with the error
of an invalid price, whatever the coin amount; with a coin of another denom it
fails with the error of an incorrect denom, whatever the price. -/
theorem PlaceBid_fixedPrice_rejections (s s1 : State) (msg : MsgPlaceBid) (au : Auction)
    (m : Int)
    (hget : GetAuction s msg.auctionId = some au)
    (hstatus : au.status = AuctionStatus.started)
    (htype : au.type = AuctionType.fixedPrice)
    (hres : ReservePayingCoin s au.id (Address.account msg.bidder) msg.coin = (s1, none))
    (hm : allowedBiddersMap au.allowedBidders msg.bidder = some m) :
    (msg.coin.denom = au.payingCoinDenom → msg.price ≠ au.startPrice →
      (PlaceBid s msg).2 = Except.error Err.invalidStartPrice) ∧
    (msg.coin.denom ≠ au.payingCoinDenom →
      (PlaceBid s msg).2 = Except.error Err.incorrectCoinDenom) := by
  rw [PlaceBid_fixedPrice s s1 msg au m hget hstatus hres hm htype]
  constructor
  · intro hd hp
    rw [HandleFixedPriceBid_wrong_price _ _ _ _ hd hp]
  · intro hd
    rw [HandleFixedPriceBid_wrong_denom _ _ _ _ hd]

/-- Witness of C11: alice quotes 0.6 on the fixed-price auction of price
0.5. -/
theorem PlaceBid_fixedPrice_rejections_witness :
    GetAuction genesis 1 = some fixedAuction ∧
    (ReservePayingCoin genesis 1 (Address.account "alice") ⟨"denom2", 100⟩).2 = none ∧
    allowedBiddersMap fixedAuction.allowedBidders "alice" = some 1000 ∧
    (PlaceBid genesis (aliceBid 1 (6 * 10 ^ 17) "denom2" 100 BidType.unspecified)).2
      = Except.error Err.invalidStartPrice :=
  ⟨by rfl, by rfl, by rfl,
    (PlaceBid_fixedPrice_rejections genesis
      (ReservePayingCoin genesis 1 (Address.account "alice") ⟨"denom2", 100⟩).1
      (aliceBid 1 (6 * 10 ^ 17) "denom2" 100 BidType.unspecified) fixedAuction 1000
      (by rfl) (by rfl) (by rfl) (by rfl) (by rfl)).1 (by rfl) (by decide)⟩

/-- C12: a `PlaceBid` on a started auction whose escrow reservation succeeds
fails with the error of a bidder who is not allowed exactly when no entry of
the allowed-bidder list carries the bidder's address; in that case the state
is the one left by the reservation: the last bid ids, the bid store and the
auctions are unchanged. -/
theorem PlaceBid_not_allowed_iff (s s1 : State) (msg : MsgPlaceBid) (au : Auction)
    (hget : GetAuction s msg.auctionId = some au)
    (hstatus : au.status = AuctionStatus.started)
    (hres : ReservePayingCoin s au.id (Address.account msg.bidder) msg.coin = (s1, none)) :
    ((PlaceBid s msg).2 = Except.error Err.notAllowedBidder ↔
      ∀ ab ∈ au.allowedBidders, ab.bidder ≠ msg.bidder) ∧
    ((∀ ab ∈ au.allowedBidders, ab.bidder ≠ msg.bidder) →
      (PlaceBid s msg).1 = s1 ∧
      (PlaceBid s msg).1.lastBidId = s.lastBidId ∧
      (PlaceBid s msg).1.bids = s.bids ∧
      (PlaceBid s msg).1.auctions = s.auctions) := by
  obtain ⟨_, bal, hs1⟩ := ReservePayingCoin_ok _ _ _ _ _ hres
  constructor
  · constructor
    · intro h
      rw [← allowedBiddersMap_none_iff]
      cases hm : allowedBiddersMap au.allowedBidders msg.bidder with
      | none => rfl
      | some m => exact absurd h (PlaceBid_past_checks s s1 msg au m hget hstatus hres hm).1
    · intro h
      rw [← allowedBiddersMap_none_iff] at h
      rw [PlaceBid_not_allowed s s1 msg au hget hstatus hres h]
  · intro h
    rw [← allowedBiddersMap_none_iff] at h
    rw [PlaceBid_not_allowed s s1 msg au hget hstatus hres h, hs1]
    exact ⟨rfl, rfl, rfl, rfl⟩

/-- Witness of C12: bob bids on the fixed-price auction, whose only allowed
bidder is alice. -/
theorem PlaceBid_not_allowed_iff_witness :
    GetAuction genesis 1 = some fixedAuction ∧
    fixedAuction.status = AuctionStatus.started ∧
    (ReservePayingCoin genesis 1 (Address.account "bob") ⟨"denom2", 0⟩).2 = none ∧
    (∀ ab ∈ fixedAuction.allowedBidders, ab.bidder ≠ "bob") ∧
    (PlaceBid genesis bobBid).2 = Except.error Err.notAllowedBidder ∧
    (PlaceBid genesis bobBid).1.lastBidId = genesis.lastBidId :=
  ⟨by rfl, by rfl, by rfl, by decide,
    (PlaceBid_not_allowed_iff genesis
      (ReservePayingCoin genesis 1 (Address.account "bob") ⟨"denom2", 0⟩).1 bobBid fixedAuction
      (by rfl) (by rfl) (by rfl)).1.2 (by decide),
    ((PlaceBid_not_allowed_iff genesis
      (ReservePayingCoin genesis 1 (Address.account "bob") ⟨"denom2", 0⟩).1 bobBid fixedAuction
      (by rfl) (by rfl) (by rfl)).2 (by decide)).2.1⟩

/-- C13: after a successful `PlaceBid` the returned bid is the bid stored
under its auction id and id; its id is the previous last bid id of the auction
plus one (in `uint64`), its bidder, price and coin are those of the request,
its height is the height of the current block, and it is marked as a winner on
a fixed-price auction and not on a batch auction. -/
theorem PlaceBid_returns_stored_bid (s s1 : State) (msg : MsgPlaceBid) (b : Bid)
    (h : PlaceBid s msg = (s1, Except.ok b)) :
    GetBid s1 b.auctionId b.id = some b ∧
    b.auctionId = msg.auctionId ∧
    b.id = (GetLastBidId s msg.auctionId + 1) % 2 ^ 64 ∧
    (GetLastBidId s msg.auctionId + 1 < 2 ^ 64 → b.id = GetLastBidId s msg.auctionId + 1) ∧
    GetLastBidId s1 msg.auctionId = b.id ∧
    b.bidder = msg.bidder ∧ b.price = msg.price ∧ b.coin = msg.coin ∧
    b.height = uint64 s.blockHeight ∧
    (0 ≤ s.blockHeight → s.blockHeight < 2 ^ 64 → (b.height : Int) = s.blockHeight) ∧
    (∀ au, GetAuction s msg.auctionId = some au →
      (au.type = AuctionType.fixedPrice → b.isWinner = true) ∧
      (au.type = AuctionType.batch → b.isWinner = false)) := by
  obtain ⟨au, m, hget, hid, _, _, _, hb, hbids, hl, _, _⟩ := PlaceBid_ok _ _ _ _ h
  have hbid : b.id = (s.lastBidId au.id + 1) % 2 ^ 64 := by rw [hb]
  have hheight : b.height = uint64 s.blockHeight := by rw [hb]
  refine ⟨?_, by rw [hb]; exact hid, by rw [hbid, hid]; rfl, ?_, ?_, by rw [hb], by rw [hb],
    by rw [hb], hheight, ?_, ?_⟩
  · unfold GetBid
    rw [hbids, kvGet_kvSet]
    exact if_pos rfl
  · intro hlt
    rw [hbid, hid]
    exact Nat.mod_eq_of_lt hlt
  · unfold GetLastBidId
    rw [hl, hbid, hid]
    simp
  · intro h0 hlt
    rw [hheight]
    unfold uint64
    rw [Int.emod_eq_of_lt h0 hlt, Int.toNat_of_nonneg h0]
  · intro au' hget'
    rw [hget] at hget'
    simp only [Option.some.injEq] at hget'
    subst hget'
    constructor
    · intro ht; rw [hb]; simp [ht]
    · intro ht; rw [hb]; simp [ht]

/-- Witness of C13: the first bid of alice on the fixed-price auction gets
the id 1 and is stored. -/
theorem PlaceBid_returns_stored_bid_witness :
    GetBid fixedState 1 1
      = some
          { auctionId := 1, id := 1, bidder := "alice", price := ⟨5 * 10 ^ 17⟩,
            coin := ⟨"denom2", 100⟩, height := 7, isWinner := true, isMatched := false,
            type := BidType.unspecified } :=
  (PlaceBid_returns_stored_bid genesis fixedState
    (aliceBid 1 (5 * 10 ^ 17) "denom2" 100 BidType.unspecified)
    { auctionId := 1, id := 1, bidder := "alice", price := ⟨5 * 10 ^ 17⟩,
      coin := ⟨"denom2", 100⟩, height := 7, isWinner := true, isMatched := false,
      type := BidType.unspecified }
    (by rfl)).1


/-! ## Claims on `ModifyBid`, on the batch handler and on consumed ids -/

/-- C14 (as stated, refuted): on the fixed-price auction the stored bid of
alice has a coin of denom2; a `ModifyBid` with a coin of denom1 fails with the
error of an incorrect auction type, not with the error of an incorrect
denom: the auction type is checked before the bid is read. -/
theorem C14_as_stated_fails :
    (GetBid fixedState 1 1).map (fun b => b.coin.denom) = some "denom2" ∧
    (ModifyBid fixedState ⟨1, 1, ⟨5 * 10 ^ 17⟩, ⟨"denom1", 100⟩⟩).2
      = Except.error Err.incorrectAuctionType ∧
    (ModifyBid fixedState ⟨1, 1, ⟨5 * 10 ^ 17⟩, ⟨"denom1", 100⟩⟩).2
      ≠ Except.error Err.incorrectCoinDenom := by
  refine ⟨by rfl, by rfl, ?_⟩
  rw [show (ModifyBid fixedState ⟨1, 1, ⟨5 * 10 ^ 17⟩, ⟨"denom1", 100⟩⟩).2
      = Except.error Err.incorrectAuctionType from by rfl]
  simp

/-- C14 (amended): on a batch auction, a `ModifyBid` whose coin denom differs
from that of the existing bid fails with the error of an incorrect denom and
returns the state unchanged; after every successful `ModifyBid` the stored bid
has the auction id, id, bidder, coin denom, type, winner flag and matched flag
it had, with price, coin amount and height overwritten, and every other bid,
every auction, every last bid id and every balance is unchanged. -/
theorem ModifyBid_frame :
    (∀ (s : State) (msg : MsgModifyBid) (au : Auction) (bid : Bid),
      GetAuction s msg.auctionId = some au → au.type = AuctionType.batch →
      GetBid s msg.auctionId msg.bidId = some bid → bid.coin.denom ≠ msg.coin.denom →
      ModifyBid s msg = (s, Except.error Err.incorrectCoinDenom)) ∧
    (∀ (s s1 : State) (msg : MsgModifyBid),
      ModifyBid s msg = (s1, Except.ok ()) →
      ∃ bid bid1 : Bid,
        GetBid s msg.auctionId msg.bidId = some bid ∧
        GetBid s1 msg.auctionId msg.bidId = some bid1 ∧
        bid1.auctionId = bid.auctionId ∧ bid1.id = bid.id ∧ bid1.bidder = bid.bidder ∧
        bid1.coin.denom = bid.coin.denom ∧ bid1.type = bid.type ∧
        bid1.isWinner = bid.isWinner ∧ bid1.isMatched = bid.isMatched ∧
        bid1.price = msg.price ∧ bid1.coin.amount = msg.coin.amount ∧
        bid1.height = uint64 s.blockHeight ∧
        (∀ a i : Nat, (a, i) ≠ (msg.auctionId, msg.bidId) → GetBid s1 a i = GetBid s a i) ∧
        s1.auctions = s.auctions ∧ s1.lastBidId = s.lastBidId ∧
        s1.balances = s.balances) := by
  constructor
  · intro s msg au bid hget htype hbid hden
    unfold ModifyBid
    rw [hget]
    simp only [htype, ne_eq, not_true_eq_false, if_false]
    rw [hbid]
    simp only [hden, not_false_eq_true, if_true]
  · intro s s1 msg h
    rcases ModifyBid_state s msg with ⟨_, e, he⟩ | ⟨au, bid, _, _, hbid, hden, _, hs⟩
    · rw [h] at he
      simp at he
    · rw [h] at hs
      simp only at hs
      have hkey : bidKey bid = (msg.auctionId, msg.bidId) := (kvGet_key _ _ _ _ hbid).1
      refine ⟨bid, { bid with price := msg.price, coin := msg.coin,
                              height := uint64 s.blockHeight },
        hbid, ?_, rfl, rfl, rfl, hden.symm, rfl, rfl, rfl, rfl, rfl, rfl, ?_, ?_, ?_, ?_⟩
      · unfold GetBid
        rw [hs]
        simp only [SetBid]
        rw [kvGet_kvSet]
        exact if_pos hkey
      · intro a i hne
        unfold GetBid
        rw [hs]
        simp only [SetBid]
        rw [kvGet_kvSet]
        apply if_neg
        intro hc
        apply hne
        rw [← hc]
        exact hkey
      · rw [hs]; rfl
      · rw [hs]; rfl
      · rw [hs]; rfl

/-- Witness of C14 (amended): on the batch auction the stored bid of alice
has a coin of denom2, and a modification with a coin of denom1 is rejected. -/
theorem ModifyBid_frame_witness :
    GetAuction batchState 2 = some batchAuction ∧
    batchAuction.type = AuctionType.batch ∧
    (ModifyBid batchState ⟨2, 1, ⟨10 ^ 18⟩, ⟨"denom1", 100⟩⟩).2
      = Except.error Err.incorrectCoinDenom :=
  ⟨by rfl, by rfl,
    congrArg Prod.snd
      (ModifyBid_frame.1 batchState ⟨2, 1, ⟨10 ^ 18⟩, ⟨"denom1", 100⟩⟩ batchAuction
        { auctionId := 2, id := 1, bidder := "alice", price := ⟨10 ^ 18⟩,
          coin := ⟨"denom2", 100⟩, height := 7, isWinner := false, isMatched := false,
          type := BidType.unspecified }
        (by rfl) (by rfl) (by rfl) (by decide))⟩

/-- C15: on an existing auction whose type is not `Batch`, `ModifyBid` fails
with the error of an incorrect auction type for every bid id, price and coin,
and returns the state it was given. -/
theorem ModifyBid_not_batch (s : State) (msg : MsgModifyBid) (au : Auction)
    (hget : GetAuction s msg.auctionId = some au) (htype : au.type ≠ AuctionType.batch) :
    ModifyBid s msg = (s, Except.error Err.incorrectAuctionType) := by
  unfold ModifyBid
  rw [hget]
  simp only [if_pos htype]

/-- Witness of C15: the stored bid of alice on the fixed-price auction cannot
be modified. -/
theorem ModifyBid_not_batch_witness :
    GetAuction fixedState 1 ≠ none ∧
    (GetBid fixedState 1 1).map (fun b => b.coin) = some ⟨"denom2", 100⟩ ∧
    (ModifyBid fixedState ⟨1, 1, ⟨5 * 10 ^ 17⟩, ⟨"denom2", 200⟩⟩).2
      = Except.error Err.incorrectAuctionType :=
  ⟨by decide, by rfl,
    congrArg Prod.snd
      (ModifyBid_not_batch fixedState ⟨1, 1, ⟨5 * 10 ^ 17⟩, ⟨"denom2", 200⟩⟩
        { fixedAuction with remainingSellingCoin := ⟨"denom1", 999800⟩ }
        (by rfl) (by decide))⟩

/-- C17: when a `PlaceBid` passes the auction, status, escrow and
allowed-bidder checks and then fails, the state it leaves has the last bid id
of the auction advanced by one (in `uint64`) and the bid store unchanged, and
the next successful `PlaceBid` on the auction gets the id two above the
former last bid id. -/
theorem PlaceBid_failure_consumes_id (s sr s1 : State) (msg : MsgPlaceBid) (au : Auction)
    (m : Int) (e : Err)
    (hget : GetAuction s msg.auctionId = some au)
    (hstatus : au.status = AuctionStatus.started)
    (hres : ReservePayingCoin s au.id (Address.account msg.bidder) msg.coin = (sr, none))
    (hm : allowedBiddersMap au.allowedBidders msg.bidder = some m)
    (herr : PlaceBid s msg = (s1, Except.error e)) :
    GetLastBidId s1 msg.auctionId = (GetLastBidId s msg.auctionId + 1) % 2 ^ 64 ∧
    (GetLastBidId s msg.auctionId + 1 < 2 ^ 64 →
      GetLastBidId s1 msg.auctionId = GetLastBidId s msg.auctionId + 1) ∧
    s1.bids = s.bids ∧
    (∀ a, a ≠ msg.auctionId → GetLastBidId s1 a = GetLastBidId s a) ∧
    (∀ (msg2 : MsgPlaceBid) (s2 : State) (b : Bid),
      msg2.auctionId = msg.auctionId → PlaceBid s1 msg2 = (s2, Except.ok b) →
      b.id = (GetLastBidId s msg.auctionId + 2) % 2 ^ 64 ∧
      (GetLastBidId s msg.auctionId + 2 < 2 ^ 64 →
        b.id = GetLastBidId s msg.auctionId + 2)) := by
  have hid := GetAuction_id _ _ _ hget
  obtain ⟨_, bal, hsr⟩ := ReservePayingCoin_ok _ _ _ _ _ hres
  have hst := (PlaceBid_past_checks s sr msg au m hget hstatus hres hm).2
    ⟨e, by rw [herr]⟩
  rw [herr] at hst
  simp only at hst
  have hl : GetLastBidId s1 msg.auctionId = (GetLastBidId s msg.auctionId + 1) % 2 ^ 64 := by
    unfold GetLastBidId
    rw [hst, hsr, hid]
    simp [SetBidId]
  refine ⟨hl, ?_, (PlaceBid_error _ _ _ _ herr).1, ?_, ?_⟩
  · intro hlt
    rw [hl]
    exact Nat.mod_eq_of_lt hlt
  · intro a ha
    unfold GetLastBidId
    rw [hst, hsr, hid]
    simp [SetBidId, ha]
  · intro msg2 s2 b h2 hok
    obtain ⟨au2, _, _, hid2, _, _, _, hb, _⟩ := PlaceBid_ok _ _ _ _ hok
    have hbid : b.id = (GetLastBidId s1 msg.auctionId + 1) % 2 ^ 64 := by
      rw [hb]
      simp only [GetLastBidId]
      rw [hid2, h2]
    rw [hl] at hbid
    constructor
    · rw [hbid]; omega
    · intro hlt
      rw [hbid]; omega

/-- Witness of C17: alice quotes a wrong price on the fixed-price auction;
the id 1 is taken, no bid is stored, and her next bid gets the id 2. -/
theorem PlaceBid_failure_consumes_id_witness :
    GetLastBidId genesis 1 = 0 ∧
    (PlaceBid genesis (aliceBid 1 (6 * 10 ^ 17) "denom2" 100 BidType.unspecified)).2
      = Except.error Err.invalidStartPrice ∧
    GetLastBidId
      (PlaceBid genesis (aliceBid 1 (6 * 10 ^ 17) "denom2" 100 BidType.unspecified)).1 1
      = (GetLastBidId genesis 1 + 1) % 2 ^ 64 ∧
    (PlaceBid genesis (aliceBid 1 (6 * 10 ^ 17) "denom2" 100 BidType.unspecified)).1.bids
      = genesis.bids ∧
    (PlaceBid
      (PlaceBid genesis (aliceBid 1 (6 * 10 ^ 17) "denom2" 100 BidType.unspecified)).1
      (aliceBid 1 (5 * 10 ^ 17) "denom2" 100 BidType.unspecified)).2
      = Except.ok { aliceFixedBid 2 100 with isWinner := true } :=
  ⟨by rfl, by rfl,
    (PlaceBid_failure_consumes_id genesis
      (ReservePayingCoin genesis 1 (Address.account "alice") ⟨"denom2", 100⟩).1
      (PlaceBid genesis (aliceBid 1 (6 * 10 ^ 17) "denom2" 100 BidType.unspecified)).1
      (aliceBid 1 (6 * 10 ^ 17) "denom2" 100 BidType.unspecified) fixedAuction 1000
      Err.invalidStartPrice (by rfl) (by rfl) (by rfl) (by rfl) (by rfl)).1,
    (PlaceBid_failure_consumes_id genesis
      (ReservePayingCoin genesis 1 (Address.account "alice") ⟨"denom2", 100⟩).1
      (PlaceBid genesis (aliceBid 1 (6 * 10 ^ 17) "denom2" 100 BidType.unspecified)).1
      (aliceBid 1 (6 * 10 ^ 17) "denom2" 100 BidType.unspecified) fixedAuction 1000
      Err.invalidStartPrice (by rfl) (by rfl) (by rfl) (by rfl) (by rfl)).2.2.1,
    by rfl⟩

/-- C19: `HandleBatchBid` returns the error of an incorrect denom exactly
when the bid is of type `BatchWorth` with a coin not in the paying denom, or
of type `BatchMany` with a coin not in the selling denom; in every other case
it returns no error; and it always returns the state it was given. -/
theorem HandleBatchBid_spec (s : State) (au : Auction) (bid : Bid) :
    ((HandleBatchBid s au bid).2 = some Err.incorrectCoinDenom ↔
      (bid.type = BidType.batchWorth ∧ bid.coin.denom ≠ au.payingCoinDenom) ∨
      (bid.type = BidType.batchMany ∧ bid.coin.denom ≠ au.sellingCoin.denom)) ∧
    ((HandleBatchBid s au bid).2 = some Err.incorrectCoinDenom ∨
      (HandleBatchBid s au bid).2 = none) ∧
    (HandleBatchBid s au bid).1 = s := by
  refine ⟨?_, ?_, HandleBatchBid_state s au bid⟩
  · unfold HandleBatchBid
    by_cases h1 : bid.type = BidType.batchWorth
    · by_cases h2 : bid.coin.denom = au.payingCoinDenom
      · simp [h1, h2]
      · simp [h1, h2]
    · by_cases h3 : bid.type = BidType.batchMany
      · by_cases h4 : bid.coin.denom = au.sellingCoin.denom
        · simp [h1, h3, h4]
        · simp [h1, h3, h4]
      · simp [h1, h3]
  · unfold HandleBatchBid
    repeat' split
    all_goals simp


/-! ## Claims on the fixed-price handler and on the composed conversions -/

/-- C16 (as stated, refuted): a bid of `10^70` paying coins at the start price
`10^-18` is in the paying denom and at the start price, and its exchanged
amount `floor(coin.amount / price) = 10^88` exceeds the remaining selling
amount; `HandleFixedPriceBid` does not fail with the error of an insufficient
remaining amount: the division panics, the quotient having more than 315
bits. -/
theorem C16_as_stated_fails :
    hugeBid.coin.denom = dustAuction.payingCoinDenom ∧
    hugeBid.price = dustAuction.startPrice ∧
    sellingAmount hugeBid = 10 ^ 88 ∧
    sellingAmount hugeBid > dustAuction.remainingSellingCoin.amount ∧
    (HandleFixedPriceBid genesis dustAuction hugeBid 1000).2 = some Err.crashed ∧
    (HandleFixedPriceBid genesis dustAuction hugeBid 1000).2
      ≠ some Err.insufficientRemainingAmount := by
  have hs : sellingAmount hugeBid = 10 ^ 88 := by
    show ⌊((10 ^ 70 : Int) : ℚ) / (Dec.toRat ⟨1⟩)⌋ = 10 ^ 88
    rw [floor_div_toRat _ _ (by decide)]
    decide
  refine ⟨by rfl, by rfl, hs, ?_, by rfl, ?_⟩
  · rw [hs]
    show (10 : Int) ^ 88 > 1000000
    norm_num
  · rw [show (HandleFixedPriceBid genesis dustAuction hugeBid 1000).2 = some Err.crashed
      from by rfl]
    decide

/-- C16 (amended): for a bid in the paying denom at the (positive) start
price, with non-negative coin amounts, `exchanged = floor(coin.amount /
price)`, `prior` the sum of `floor(coin.amount / price)` over the stored bids
of the bidder in the auction, and `prior + exchanged` below `2^255`,
`HandleFixedPriceBid` fails with the error of an insufficient remaining amount
exactly when `exchanged` exceeds the remaining selling amount; otherwise it
fails with the error of the exceeded ceiling exactly when `prior + exchanged`
exceeds `maxBidAmt`; otherwise it succeeds.  A bid that exhausts the
remaining amount, or reaches `maxBidAmt`, is accepted. -/
theorem HandleFixedPriceBid_outcome (s : State) (au : Auction) (bid : Bid) (maxBidAmt : Int)
    (hden : bid.coin.denom = au.payingCoinDenom) (hprice : bid.price = au.startPrice)
    (hpos : 0 < bid.price.i) (hamt : 0 ≤ bid.coin.amount)
    (hrem : au.remainingSellingCoin.denom = au.sellingCoin.denom)
    (hstored : ∀ b ∈ GetBidsByAuctionId s au.id, b.bidder = bid.bidder →
      0 < b.price.i ∧ 0 ≤ b.coin.amount)
    (hrange : bidderTotal s.bids au.id bid.bidder + sellingAmount bid < 2 ^ 255) :
    ((HandleFixedPriceBid s au bid maxBidAmt).2 = some Err.insufficientRemainingAmount ↔
      sellingAmount bid > au.remainingSellingCoin.amount) ∧
    (¬ sellingAmount bid > au.remainingSellingCoin.amount →
      ((HandleFixedPriceBid s au bid maxBidAmt).2 = some Err.overMaxBidAmountLimit ↔
        bidderTotal s.bids au.id bid.bidder + sellingAmount bid > maxBidAmt)) ∧
    (¬ sellingAmount bid > au.remainingSellingCoin.amount →
      ¬ bidderTotal s.bids au.id bid.bidder + sellingAmount bid > maxBidAmt →
      (HandleFixedPriceBid s au bid maxBidAmt).2 = none) ∧
    (sellingAmount bid = au.remainingSellingCoin.amount →
      bidderTotal s.bids au.id bid.bidder + sellingAmount bid ≤ maxBidAmt →
      (HandleFixedPriceBid s au bid maxBidAmt).2 = none) ∧
    (sellingAmount bid ≤ au.remainingSellingCoin.amount →
      bidderTotal s.bids au.id bid.bidder + sellingAmount bid = maxBidAmt →
      (HandleFixedPriceBid s au bid maxBidAmt).2 = none) := by
  have h := HandleFixedPriceBid_eval s au bid maxBidAmt hden hprice hpos hamt hrem hstored
    hrange
  rw [h]
  refine ⟨?_, ?_, ?_, ?_, ?_⟩
  · by_cases h1 : au.remainingSellingCoin.amount < sellingAmount bid
    · simp [h1]
    · by_cases h2 : bidderTotal s.bids au.id bid.bidder + sellingAmount bid > maxBidAmt
      · simp [h1, h2]
      · simp [h1, h2]
  · intro h1
    have h1' : ¬ au.remainingSellingCoin.amount < sellingAmount bid := h1
    by_cases h2 : bidderTotal s.bids au.id bid.bidder + sellingAmount bid > maxBidAmt
    · simp [h1', h2]
    · simp [h1', h2]
  · intro h1 h2
    have h1' : ¬ au.remainingSellingCoin.amount < sellingAmount bid := h1
    simp [h1', h2]
  · intro h1 h2
    have h1' : ¬ au.remainingSellingCoin.amount < sellingAmount bid := by omega
    have h2' : ¬ bidderTotal s.bids au.id bid.bidder + sellingAmount bid > maxBidAmt := by
      omega
    simp [h1', h2']
  · intro h1 h2
    have h1' : ¬ au.remainingSellingCoin.amount < sellingAmount bid := by omega
    have h2' : ¬ bidderTotal s.bids au.id bid.bidder + sellingAmount bid > maxBidAmt := by
      omega
    simp [h1', h2']

/-- Witness of C16 (amended): after her first bid (200 selling coins) a bid
of alice for 400 paying coins (800 selling coins) reaches her ceiling of 1000
and is accepted, and a bid for 401 paying coins (802 selling coins) is over
it. -/
theorem HandleFixedPriceBid_outcome_witness :
    (aliceFixedBid 2 400).coin.denom = fixedAuction.payingCoinDenom ∧
    (aliceFixedBid 2 400).price = fixedAuction.startPrice ∧
    ((HandleFixedPriceBid fixedState fixedAuction (aliceFixedBid 2 400) 1000).2
        = some Err.insufficientRemainingAmount ↔
      sellingAmount (aliceFixedBid 2 400) > fixedAuction.remainingSellingCoin.amount) ∧
    (HandleFixedPriceBid fixedState fixedAuction (aliceFixedBid 2 400) 1000).2 = none ∧
    (HandleFixedPriceBid fixedState fixedAuction (aliceFixedBid 2 401) 1000).2
      = some Err.overMaxBidAmountLimit :=
  ⟨by rfl, by rfl,
    (HandleFixedPriceBid_outcome fixedState fixedAuction (aliceFixedBid 2 400) 1000
      (by rfl) (by rfl) (by decide) (by decide) (by rfl)
      (by
        intro b hb _
        have hb' : b ∈ [{ aliceFixedBid 1 100 with isWinner := true }] := hb
        rw [List.mem_singleton] at hb'
        rw [hb']
        exact ⟨by decide, by decide⟩)
      (by
        have h1 : bidderTotal fixedState.bids 1 "alice"
            = sellingAmount { aliceFixedBid 1 100 with isWinner := true } + 0 := by rfl
        show bidderTotal fixedState.bids 1 "alice" + sellingAmount (aliceFixedBid 2 400)
          < 2 ^ 255
        rw [h1, sellingAmount_eq _ (by decide), sellingAmount_eq _ (by decide)]
        show (100 : Int) * precisionReuse / (5 * 10 ^ 17) + 0
          + 400 * precisionReuse / (5 * 10 ^ 17) < 2 ^ 255
        norm_num [precisionReuse])).1,
    by rfl, by rfl⟩

/-- C18 (as stated, refuted): on the fixed-price auction (paying denom2,
selling denom1) the bid of alice of 100 coins of denom2 at price 0.5 passes
the denom and price checks; the handler exchanges 200 selling coins and
takes 200 off the remaining amount, while `ConvertToSellingAmount` with the
selling-coin denom returns the coin amount 100. -/
theorem C18_as_stated_fails :
    (aliceFixedBid 1 100).coin.denom = fixedAuction.payingCoinDenom ∧
    (aliceFixedBid 1 100).price = fixedAuction.startPrice ∧
    (HandleFixedPriceBid genesis fixedAuction (aliceFixedBid 1 100) 1000).2 = none ∧
    (GetAuction (HandleFixedPriceBid genesis fixedAuction (aliceFixedBid 1 100) 1000).1 1).map
      (fun a => a.remainingSellingCoin.amount) = some (1000000 - 200) ∧
    quoTruncateInt (aliceFixedBid 1 100).coin.amount (aliceFixedBid 1 100).price = some 200 ∧
    (aliceFixedBid 1 100).ConvertToSellingAmount fixedAuction.sellingCoin.denom = some 100 := by
  refine ⟨by rfl, by rfl, by rfl, by rfl, by decide, by decide⟩

/-- C18 (amended): in `HandleFixedPriceBid`, for every bid that passes the
denom and price checks, the exchanged selling amount is
`bid.ConvertToSellingAmount(auction paying-coin denom)`.  The handler panics
when that conversion panics.  With the conversion returning `ex` (not
negative, below `2^255`, the remaining coin being in the selling denom) and
the remaining amount below `ex`, the handler fails with the error of an
insufficient remaining amount; and whenever it fails with that error, the
conversion has returned an `ex` above the remaining amount.  Whenever it
fails with the error of the exceeded ceiling, `ex` is within the remaining
amount and the sum of the loop over the stored bids plus `ex` exceeds
`maxBidAmt`.  Whenever it succeeds, `ex` is within the remaining amount, the
sum of the loop plus `ex` is within `maxBidAmt`, and the stored remaining
selling coin is the former one less `ex`. -/
theorem HandleFixedPriceBid_uses_conversion (s : State) (au : Auction) (bid : Bid)
    (maxBidAmt : Int) (hden : bid.coin.denom = au.payingCoinDenom)
    (hprice : bid.price = au.startPrice) :
    (bid.ConvertToSellingAmount au.payingCoinDenom = none →
      HandleFixedPriceBid s au bid maxBidAmt = (s, some Err.crashed)) ∧
    (∀ ex : Int, bid.ConvertToSellingAmount au.payingCoinDenom = some ex → 0 ≤ ex →
      ex < 2 ^ 255 → au.remainingSellingCoin.denom = au.sellingCoin.denom →
      au.remainingSellingCoin.amount < ex →
      HandleFixedPriceBid s au bid maxBidAmt = (s, some Err.insufficientRemainingAmount)) ∧
    ((HandleFixedPriceBid s au bid maxBidAmt).2 = some Err.insufficientRemainingAmount →
      ∃ ex : Int, bid.ConvertToSellingAmount au.payingCoinDenom = some ex ∧
        au.remainingSellingCoin.amount < ex) ∧
    ((HandleFixedPriceBid s au bid maxBidAmt).2 = some Err.overMaxBidAmountLimit →
      ∃ ex total : Int, bid.ConvertToSellingAmount au.payingCoinDenom = some ex ∧
        ¬ au.remainingSellingCoin.amount < ex ∧
        totalBidAmtLoop bid.bidder (GetBidsByAuctionId s au.id) 0 = some total ∧
        total + ex > maxBidAmt) ∧
    ((HandleFixedPriceBid s au bid maxBidAmt).2 = none →
      ∃ ex total : Int, bid.ConvertToSellingAmount au.payingCoinDenom = some ex ∧
        ex ≤ au.remainingSellingCoin.amount ∧
        totalBidAmtLoop bid.bidder (GetBidsByAuctionId s au.id) 0 = some total ∧
        total + ex ≤ maxBidAmt ∧
        (GetAuction (HandleFixedPriceBid s au bid maxBidAmt).1 au.id).map
          (fun a => a.remainingSellingCoin)
          = some ⟨au.sellingCoin.denom, au.remainingSellingCoin.amount - ex⟩) := by
  have hconv : bid.ConvertToSellingAmount au.payingCoinDenom
      = quoTruncateInt bid.coin.amount bid.price := by
    rw [Bid.ConvertToSellingAmount, if_pos hden]
  rw [hconv]
  refine ⟨?_, ?_, ?_, ?_, ?_⟩
  · intro hnone
    have heq : bid.price.Equal au.startPrice = true := by
      rw [hprice]; simp [Dec.Equal]
    unfold HandleFixedPriceBid
    rw [if_neg (not_not.mpr hden), if_neg (not_not.mpr heq), hnone]
  · intro ex hex hex0 _ hrem hlt
    exact (HandleFixedPriceBid_with_amount s au bid maxBidAmt ex hden hprice hex hex0 hrem).1
      hlt
  · intro h
    rcases hH : HandleFixedPriceBid s au bid maxBidAmt with ⟨s1, oe⟩
    rw [hH] at h
    simp only at h
    rw [h] at hH
    exact HandleFixedPriceBid_insufficient_inv _ _ _ _ _ hH
  · intro h
    rcases hH : HandleFixedPriceBid s au bid maxBidAmt with ⟨s1, oe⟩
    rw [hH] at h
    simp only at h
    rw [h] at hH
    exact HandleFixedPriceBid_over_inv _ _ _ _ _ hH
  · intro h
    rcases hH : HandleFixedPriceBid s au bid maxBidAmt with ⟨s1, oe⟩
    rw [hH] at h
    simp only at h
    rw [h] at hH
    obtain ⟨ex, total, _, _, hex, _, hrem, hle, htotal, hmax, hs1⟩ :=
      HandleFixedPriceBid_ok _ _ _ _ _ hH
    refine ⟨ex, total, hex, hle, htotal, hmax, ?_⟩
    simp only []
    unfold GetAuction
    rw [hs1]
    simp only []
    rw [kvGet_kvSet, if_pos rfl, hrem]
    rfl

/-- Witness of C18 (amended): 100 paying coins at price 0.5 convert to 200
selling coins; with 150 selling coins left the bid is rejected, although the
coin amount 100 is below 150, and with a million selling coins left 200 of
them are taken. -/
theorem HandleFixedPriceBid_uses_conversion_witness :
    (aliceFixedBid 1 100).coin.denom = scarceAuction.payingCoinDenom ∧
    (aliceFixedBid 1 100).price = scarceAuction.startPrice ∧
    (aliceFixedBid 1 100).ConvertToSellingAmount scarceAuction.payingCoinDenom = some 200 ∧
    (aliceFixedBid 1 100).coin.amount < scarceAuction.remainingSellingCoin.amount ∧
    HandleFixedPriceBid genesis scarceAuction (aliceFixedBid 1 100) 1000
      = (genesis, some Err.insufficientRemainingAmount) ∧
    (∃ ex total : Int,
      (aliceFixedBid 1 100).ConvertToSellingAmount fixedAuction.payingCoinDenom = some ex ∧
      ex ≤ fixedAuction.remainingSellingCoin.amount ∧
      totalBidAmtLoop "alice" (GetBidsByAuctionId genesis 1) 0 = some total ∧
      total + ex ≤ 1000 ∧
      (GetAuction (HandleFixedPriceBid genesis fixedAuction (aliceFixedBid 1 100) 1000).1 1).map
        (fun a => a.remainingSellingCoin)
        = some ⟨"denom1", fixedAuction.remainingSellingCoin.amount - ex⟩) :=
  ⟨by rfl, by rfl, by decide, by decide,
    (HandleFixedPriceBid_uses_conversion genesis scarceAuction (aliceFixedBid 1 100) 1000
      (by rfl) (by rfl)).2.1 200 (by decide) (by decide) (by norm_num) (by rfl) (by decide),
    (HandleFixedPriceBid_uses_conversion genesis fixedAuction (aliceFixedBid 1 100) 1000
      (by rfl) (by rfl)).2.2.2.2 (by rfl)⟩

/-- C20: for a non-negative amount `a` (an `sdk.Int`, below `2^255`) and a
positive price `p`, with `s = floor(a / p)` the selling amount that
`ConvertToSellingAmount` returns for a bid holding `a` in the paying denom,
`ConvertToPayingAmount` of a bid holding `s` in another denom at the same
price returns `ceil(s * p)`, which is at most `a`. -/
theorem conversions_compose_without_overcharge (b1 b2 : Bid) (payingCoinDenom : String)
    (ha : 0 ≤ b1.coin.amount) (hp : 0 < b1.price.i)
    (h1 : b1.coin.denom = payingCoinDenom) (h2 : b2.coin.denom ≠ payingCoinDenom)
    (hprice : b2.price = b1.price)
    (hamt : b1.ConvertToSellingAmount payingCoinDenom = some b2.coin.amount) :
    b2.coin.amount = ⌊(b1.coin.amount : ℚ) / b1.price.toRat⌋ ∧
    ⌈(b2.coin.amount : ℚ) * b1.price.toRat⌉ ≤ b1.coin.amount ∧
    (∀ r : Int, b2.ConvertToPayingAmount payingCoinDenom = some r →
      r = ⌈(b2.coin.amount : ℚ) * b1.price.toRat⌉ ∧ r ≤ b1.coin.amount) ∧
    (b1.coin.amount < 2 ^ 255 →
      b2.ConvertToPayingAmount payingCoinDenom
        = some ⌈(b2.coin.amount : ℚ) * b1.price.toRat⌉) := by
  have hS := precisionReuse_pos
  have hf := floor_div_toRat b1.coin.amount b1.price.i hp
  rw [Bid.ConvertToSellingAmount, if_pos h1] at hamt
  have hs := quoTruncateInt_some b1.coin.amount b1.price.i _ ha hp hamt
  have hs0 : 0 ≤ b2.coin.amount := by
    rw [hs]
    exact Int.ediv_nonneg (mul_nonneg ha hS.le) hp.le
  have hfloor : b2.coin.amount = ⌊(b1.coin.amount : ℚ) / b1.price.toRat⌋ := by
    rw [hf]; exact hs
  have hle : ⌈(b2.coin.amount : ℚ) * b1.price.toRat⌉ ≤ b1.coin.amount := by
    rw [Int.ceil_le]
    have hpq : (0 : ℚ) < b1.price.toRat := by
      have : (0 : ℚ) < (b1.price.i : ℚ) := by exact_mod_cast hp
      simp only [Dec.toRat]
      positivity
    have hle := Int.floor_le ((b1.coin.amount : ℚ) / b1.price.toRat)
    rw [← hfloor, le_div_iff₀ hpq] at hle
    exact hle
  have heval := payingAmount_eval b2.coin.amount b1.price.i hs0 hp.le
  have hpay : b2.ConvertToPayingAmount payingCoinDenom
      = if (2 : Int) ^ 315 ≤ b2.coin.amount * b1.price.i then none
        else some ⌈(b2.coin.amount : ℚ) * b1.price.toRat⌉ := by
    rw [Bid.ConvertToPayingAmount, if_neg h2, hprice]
    exact heval
  refine ⟨hfloor, hle, ?_, ?_⟩
  · intro r hr
    rw [hpay] at hr
    split at hr
    · simp at hr
    · simp only [Option.some.injEq] at hr
      rw [← hr]
      exact ⟨rfl, hle⟩
  · intro hrange
    rw [hpay, if_neg]
    rw [not_le]
    have h3 : b2.coin.amount * b1.price.i ≤ b1.coin.amount * precisionReuse := by
      rw [hs]
      exact Int.ediv_mul_le _ hp.ne'
    have h4 : b1.coin.amount * precisionReuse < 2 ^ 255 * precisionReuse :=
      Int.mul_lt_mul_of_pos_right hrange hS
    exact lt_of_le_of_lt h3 (lt_of_lt_of_le h4 intRange_mul_precision)

/-- Witness of C20: 4 paying coins at price 3 buy 1 selling coin, for which 3
paying coins are demanded. -/
theorem conversions_compose_without_overcharge_witness :
    (testBid (3 * 10 ^ 18) "denom2" 4).ConvertToSellingAmount "denom2" = some 1 ∧
    (testBid (3 * 10 ^ 18) "denom1" 1).ConvertToPayingAmount "denom2" = some 3 ∧
    ⌈((testBid (3 * 10 ^ 18) "denom1" 1).coin.amount : ℚ)
        * (testBid (3 * 10 ^ 18) "denom2" 4).price.toRat⌉
      ≤ (testBid (3 * 10 ^ 18) "denom2" 4).coin.amount ∧
    (testBid (3 * 10 ^ 18) "denom1" 1).ConvertToPayingAmount "denom2"
      = some ⌈((testBid (3 * 10 ^ 18) "denom1" 1).coin.amount : ℚ)
          * (testBid (3 * 10 ^ 18) "denom2" 4).price.toRat⌉ :=
  ⟨by decide, by decide,
    (conversions_compose_without_overcharge (testBid (3 * 10 ^ 18) "denom2" 4)
      (testBid (3 * 10 ^ 18) "denom1" 1) "denom2" (by decide) (by decide) (by decide)
      (by decide) (by rfl) (by decide)).2.1,
    (conversions_compose_without_overcharge (testBid (3 * 10 ^ 18) "denom2" 4)
      (testBid (3 * 10 ^ 18) "denom1" 1) "denom2" (by decide) (by decide) (by decide)
      (by decide) (by rfl) (by decide)).2.2.2 (by
        show (4 : Int) < 2 ^ 255
        norm_num)⟩

end Fundraising
